import Mathlib

/-!
Verification development for the `neardata-inindexer-ts` repository.

The definitions below are a shallow embedding of the TypeScript sources:
  * `src/ts/src/types.ts`       — the data model (`StreamerMessage` and friends)
  * `src/ts/src/indexer.ts`     — the correlation state machine
    (`InternalIndexerState.processBlock`), the orchestrator (`runIndexer`),
    `AutoContinue`, and the resolved-receipt success predicates
  * `src/unnamed/part_003`      — the second state machine (`IndexerState`)
  * `src/ts/src/neardata.ts`    — the parallel ordered fetch pipeline
    (`ParallelProviderStreamer`)

JavaScript `Map` objects are embedded as association lists preserving
insertion order (JS `Map` iterates in insertion order; `set` on an existing
key updates the value in place, keeping the original position).
Asynchronous callbacks are embedded as an event trace: an event is appended
exactly where the source would `await` the corresponding indexer hook.
-/

set_option maxHeartbeats 1000000

/-! ## JS `Map` as an association list (insertion ordered) -/

variable {K V : Type} [DecidableEq K]

/-- `Map.get`: value of the first entry with the given key. -/
def mget : List (K × V) → K → Option V
  | [], _ => none
  | p :: rest, k => if p.1 = k then some p.2 else mget rest k

/-- `Map.has`. -/
def mhas (m : List (K × V)) (k : K) : Bool :=
  (mget m k).isSome

/-- `Map.set`: update in place if the key is present, append otherwise. -/
def mset : List (K × V) → K → V → List (K × V)
  | [], k, v => [(k, v)]
  | p :: rest, k, v => if p.1 = k then (k, v) :: rest else p :: mset rest k v

/-- `Map.delete`. -/
def mdel : List (K × V) → K → List (K × V)
  | [], _ => []
  | p :: rest, k => if p.1 = k then rest else p :: mdel rest k

/-- `Map.values()` in insertion order (`Array.from(m.values())`). -/
def mvalues (m : List (K × V)) : List V :=
  m.map Prod.snd

/-- The keys of the map, in insertion order. -/
def mkeys (m : List (K × V)) : List K :=
  m.map Prod.fst

/-! ## Data model (`src/ts/src/types.ts`) -/

/-- `ExecutionStatusView` (the `error` payload of `Failure` is irrelevant to
the embedded code and is dropped). -/
inductive ExecutionStatusView where
  | Failure : ExecutionStatusView
  | SuccessValue (value : Option String) : ExecutionStatusView
  | SuccessReceiptId (id : String) : ExecutionStatusView
  | Unknown : ExecutionStatusView
deriving DecidableEq, Repr

/-- `execution_outcome.outcome` of a receipt execution outcome. -/
structure ExecutionOutcomeView where
  status : ExecutionStatusView
  receipt_ids : List String
  logs : List String
deriving DecidableEq, Repr

/-- `receipt` field of `IndexerExecutionOutcomeWithReceipt`. -/
structure ReceiptView where
  receipt_id : String
  receiver_id : String
deriving DecidableEq, Repr

/-- `IndexerExecutionOutcomeWithReceipt` (`execution_outcome.outcome` is
flattened to `execution_outcome`). -/
structure IndexerExecutionOutcomeWithReceipt where
  execution_outcome : ExecutionOutcomeView
  receipt : ReceiptView
deriving DecidableEq, Repr

/-- The `transaction` field of `IndexerTransactionWithOutcome`. -/
structure TransactionView where
  hash : String
  signer_id : String
  receiver_id : String
deriving DecidableEq, Repr

/-- `IndexerTransactionWithOutcome`
(`outcome.execution_outcome.outcome.receipt_ids` is flattened to
`outcome_receipt_ids`). -/
structure IndexerTransactionWithOutcome where
  transaction : TransactionView
  outcome_receipt_ids : List String
deriving DecidableEq, Repr

/-- `chunk` of a shard. -/
structure ChunkView where
  transactions : List IndexerTransactionWithOutcome
deriving DecidableEq, Repr

/-- `IndexerShard`. -/
structure IndexerShard where
  shard_id : Nat
  chunk : Option ChunkView
  receipt_execution_outcomes : List IndexerExecutionOutcomeWithReceipt
deriving DecidableEq, Repr

/-- `block.header` of a `StreamerMessage` (`timestamp_nanosec` is carried as
its string serialization, which is all the embedded code uses). -/
structure BlockHeaderView where
  height : Nat
  timestamp_nanosec : String
deriving DecidableEq, Repr

/-- `StreamerMessage` (`block.header` is flattened to `block_header`). -/
structure StreamerMessage where
  block_header : BlockHeaderView
  shards : List IndexerShard
deriving DecidableEq, Repr

/-! ## `src/unnamed/part_002` (`near_utils`) -/

/-- `MAINNET_GENESIS_BLOCK_HEIGHT`. -/
def MAINNET_GENESIS_BLOCK_HEIGHT : Nat := 9820210

/-- `isReceiptSuccessful` from `near_utils`: `undefined` is `none`. -/
def isReceiptSuccessful (receipt : IndexerExecutionOutcomeWithReceipt) :
    Option Bool :=
  match receipt.execution_outcome.status with
  | .Failure => some false
  | .SuccessValue _ => some true
  | .SuccessReceiptId _ => some true
  | .Unknown => none

/-! ## Resolved receipts and completed transactions (`src/ts/src/indexer.ts`) -/

/-- The data of a `TransactionReceipt` (the resolved receipt record built in
`InternalIndexerState.processBlock`). -/
structure TransactionReceipt where
  receipt : IndexerExecutionOutcomeWithReceipt
  block_height : Nat
  block_timestamp_nanosec : String
deriving DecidableEq, Repr

/-- `TransactionReceipt.isSuccessful` as defined inline in
`InternalIndexerState.processBlock` (lines 326–339): a switch over the
execution status. -/
def TransactionReceipt.isSuccessful (tr : TransactionReceipt)
    (ifUnknown : Bool) : Bool :=
  match tr.receipt.execution_outcome.status with
  | .Failure => false
  | .SuccessValue _ => true
  | .SuccessReceiptId _ => true
  | .Unknown => ifUnknown

/-- `DefaultTransactionReceipt.isSuccessful`: delegate to
`isReceiptSuccessful` and fall back to `ifUnknown` when it is `undefined`. -/
def DefaultTransactionReceipt.isSuccessful (tr : TransactionReceipt)
    (ifUnknown : Bool) : Bool :=
  match isReceiptSuccessful tr.receipt with
  | none => ifUnknown
  | some r => r

/-- The data of a `CompleteTransaction`. -/
structure CompleteTransaction where
  transaction : IndexerTransactionWithOutcome
  receipts : List TransactionReceipt
deriving DecidableEq, Repr

/-- `allReceiptsSuccessful` as defined inline in
`InternalIndexerState.processBlock` (lines 359–361). -/
def CompleteTransaction.allReceiptsSuccessful (t : CompleteTransaction) :
    Bool :=
  t.receipts.all (fun r => r.isSuccessful true)

/-- `IncompleteTransaction`: the open-transaction record.  `receipts` is a JS
`Map` from receipt id to `TransactionReceipt | null`. -/
structure IncompleteTransaction where
  transaction : IndexerTransactionWithOutcome
  receipts : List (String × Option TransactionReceipt)
deriving DecidableEq, Repr

/-! ## The correlation state machine (`InternalIndexerState`) -/

/-- Which optional hooks the user indexer defines (`indexer.processBlock &&`
etc. in the source test hook presence). -/
structure Hooks where
  processBlock : Bool
  processTransaction : Bool
  processReceipt : Bool
  onTransaction : Bool
  onReceipt : Bool
  processBlockEnd : Bool
  finalize : Bool
deriving DecidableEq, Repr

/-- All hooks present. -/
def hooksAll : Hooks :=
  ⟨true, true, true, true, true, true, true⟩

/-- `BlockProcessingOptions`. -/
structure BlockProcessingOptions where
  height : Nat
  preprocess : Bool
  preprocess_new_transactions : Bool
  handle_raw_events : Bool
  handle_preprocessed_transactions_by_indexer : Bool
deriving DecidableEq, Repr

/-- One `await`ed indexer callback, with the arguments passed to it. -/
inductive Event where
  | processBlockE (block : StreamerMessage)
  | processTransactionE (tx : IndexerTransactionWithOutcome)
      (block : StreamerMessage)
  | processReceiptE (receipt : IndexerExecutionOutcomeWithReceipt)
      (block : StreamerMessage)
  | onReceiptE (receipt : TransactionReceipt) (tx : IncompleteTransaction)
      (block : StreamerMessage)
  | onTransactionE (tx : CompleteTransaction) (block : StreamerMessage)
  | processBlockEndE (block : StreamerMessage)
deriving DecidableEq, Repr

/-- The mutable state of `InternalIndexerState`. -/
structure IndexerStateM where
  pendingTransactions : List (String × IncompleteTransaction)
  receiptToTx : List (String × String)
deriving DecidableEq, Repr

/-- The empty initial state (`new InternalIndexerState()`). -/
def IndexerStateM.empty : IndexerStateM :=
  ⟨[], []⟩

/-- The body of the transaction loop of `processBlock` for one transaction
(lines 293–312). -/
def processTxInner (hooks : Hooks) (options : BlockProcessingOptions)
    (message : StreamerMessage) (acc : IndexerStateM × List Event)
    (tx : IndexerTransactionWithOutcome) : IndexerStateM × List Event :=
  let st := acc.1
  let st1 :=
    if options.preprocess then
      let rtx := tx.outcome_receipt_ids.foldl
        (fun m r => mset m r tx.transaction.hash) st.receiptToTx
      if options.preprocess_new_transactions then
        let receipts := tx.outcome_receipt_ids.foldl
          (fun m r => mset m r none) ([] : List (String × Option TransactionReceipt))
        { pendingTransactions :=
            mset st.pendingTransactions tx.transaction.hash
              ⟨tx, receipts⟩,
          receiptToTx := rtx }
      else
        { st with receiptToTx := rtx }
    else st
  (st1, acc.2 ++
    (if hooks.processTransaction && options.handle_raw_events then
      [Event.processTransactionE tx message] else []))

/-- The transaction loop over one shard (skips shards without a `chunk`). -/
def processShardTxs (hooks : Hooks) (options : BlockProcessingOptions)
    (message : StreamerMessage) (acc : IndexerStateM × List Event)
    (shard : IndexerShard) : IndexerStateM × List Event :=
  match shard.chunk with
  | none => acc
  | some chunk =>
      chunk.transactions.foldl (processTxInner hooks options message) acc

/-- The body of the receipt loop of `processBlock` for one receipt execution
outcome (lines 317–373).  The TS code mutates the `incomplete` record in
place through the shared reference held by `pendingTransactions`; the
explicit `mset` write-back below models that aliasing. -/
def processOneReceipt (hooks : Hooks) (options : BlockProcessingOptions)
    (message : StreamerMessage) (acc : IndexerStateM × List Event)
    (receipt : IndexerExecutionOutcomeWithReceipt) :
    IndexerStateM × List Event :=
  let st := acc.1
  let stepped :=
    match mget st.receiptToTx receipt.receipt.receipt_id with
    | none => acc
    | some txId =>
      -- `if (txId && options.preprocess)`: a string is truthy iff nonempty
      if txId ≠ "" ∧ options.preprocess then
        match mget st.pendingTransactions txId with
        | none => acc
        | some incomplete =>
          let processed : TransactionReceipt :=
            { receipt := receipt,
              block_height := message.block_header.height,
              block_timestamp_nanosec :=
                message.block_header.timestamp_nanosec }
          let tr1 := acc.2 ++
            (if hooks.onReceipt &&
                options.handle_preprocessed_transactions_by_indexer then
              [Event.onReceiptE processed incomplete message] else [])
          let receipts1 :=
            mset incomplete.receipts receipt.receipt.receipt_id
              (some processed)
          let folded := receipt.execution_outcome.receipt_ids.foldl
            (fun (p : List (String × String) ×
                List (String × Option TransactionReceipt)) newReceiptId =>
              (mset p.1 newReceiptId txId,
               if mhas p.2 newReceiptId then p.2
               else mset p.2 newReceiptId none))
            (st.receiptToTx, receipts1)
          let incomplete1 : IncompleteTransaction :=
            { incomplete with receipts := folded.2 }
          let pending1 := mset st.pendingTransactions txId incomplete1
          let all := mvalues folded.2
          if all.all (fun r => r.isSome) then
            let complete : CompleteTransaction :=
              { transaction := incomplete.transaction,
                receipts := all.reduceOption }
            ({ pendingTransactions := mdel pending1 txId,
               receiptToTx := folded.1 },
             tr1 ++
              (if hooks.onTransaction &&
                  options.handle_preprocessed_transactions_by_indexer then
                [Event.onTransactionE complete message] else []))
          else
            ({ pendingTransactions := pending1, receiptToTx := folded.1 },
             tr1)
      else acc
  (stepped.1, stepped.2 ++
    (if hooks.processReceipt && options.handle_raw_events then
      [Event.processReceiptE receipt message] else []))

/-- The receipt loop over one shard. -/
def processShardReceipts (hooks : Hooks) (options : BlockProcessingOptions)
    (message : StreamerMessage) (acc : IndexerStateM × List Event)
    (shard : IndexerShard) : IndexerStateM × List Event :=
  shard.receipt_execution_outcomes.foldl
    (processOneReceipt hooks options message) acc

/-- `InternalIndexerState.processBlock` (`src/ts/src/indexer.ts`
lines 280–379): the raw block hook, the transaction loop, the receipt loop,
and the unconditional block-end hook. -/
def processBlock (hooks : Hooks) (options : BlockProcessingOptions)
    (st : IndexerStateM) (message : StreamerMessage) :
    IndexerStateM × List Event :=
  let acc0 : IndexerStateM × List Event :=
    (st, if hooks.processBlock && options.handle_raw_events then
      [Event.processBlockE message] else [])
  let acc1 := message.shards.foldl (processShardTxs hooks options message) acc0
  let acc2 := message.shards.foldl
    (processShardReceipts hooks options message) acc1
  (acc2.1, acc2.2 ++
    (if hooks.processBlockEnd then [Event.processBlockEndE message] else []))

/-- Run `processBlock` over a sequence of `(message, options)` inputs,
accumulating the event trace. -/
def runBlocks (hooks : Hooks) (st : IndexerStateM)
    (inputs : List (StreamerMessage × BlockProcessingOptions)) :
    IndexerStateM × List Event :=
  inputs.foldl
    (fun acc p =>
      let r := processBlock hooks p.2 acc.1 p.1
      (r.1, acc.2 ++ r.2))
    (st, [])

/-! ## The second state machine (`IndexerState`, `src/unnamed/part_003`) -/

/-- The mutable state of `IndexerState`: the two maps plus the
`blocksReceived` counter. -/
structure IndexerState2M where
  pendingTransactions : List (String × IncompleteTransaction)
  receiptToTx : List (String × String)
  blocksReceived : Nat
deriving DecidableEq, Repr

/-- The body of the transaction loop of `IndexerState.processBlock` for one
transaction. -/
def processTxInner2 (hooks : Hooks) (options : BlockProcessingOptions)
    (message : StreamerMessage) (acc : IndexerState2M × List Event)
    (tx : IndexerTransactionWithOutcome) : IndexerState2M × List Event :=
  let st := acc.1
  let st1 :=
    if options.preprocess then
      let rtx := tx.outcome_receipt_ids.foldl
        (fun m r => mset m r tx.transaction.hash) st.receiptToTx
      if options.preprocess_new_transactions then
        let receipts := tx.outcome_receipt_ids.foldl
          (fun m r => mset m r none) ([] : List (String × Option TransactionReceipt))
        { pendingTransactions :=
            mset st.pendingTransactions tx.transaction.hash
              ⟨tx, receipts⟩,
          receiptToTx := rtx,
          blocksReceived := st.blocksReceived }
      else
        { st with receiptToTx := rtx }
    else st
  (st1, acc.2 ++
    (if hooks.processTransaction && options.handle_raw_events then
      [Event.processTransactionE tx message] else []))

/-- The transaction loop over one shard. -/
def processShardTxs2 (hooks : Hooks) (options : BlockProcessingOptions)
    (message : StreamerMessage) (acc : IndexerState2M × List Event)
    (shard : IndexerShard) : IndexerState2M × List Event :=
  match shard.chunk with
  | none => acc
  | some chunk =>
      chunk.transactions.foldl (processTxInner2 hooks options message) acc

/-- The body of the receipt loop of `IndexerState.processBlock` for one
receipt execution outcome. -/
def processOneReceipt2 (hooks : Hooks) (options : BlockProcessingOptions)
    (message : StreamerMessage) (acc : IndexerState2M × List Event)
    (receipt : IndexerExecutionOutcomeWithReceipt) :
    IndexerState2M × List Event :=
  let st := acc.1
  let stepped :=
    match mget st.receiptToTx receipt.receipt.receipt_id with
    | none => acc
    | some txId =>
      if txId ≠ "" ∧ options.preprocess then
        match mget st.pendingTransactions txId with
        | none => acc
        | some incomplete =>
          let processed : TransactionReceipt :=
            { receipt := receipt,
              block_height := message.block_header.height,
              block_timestamp_nanosec :=
                message.block_header.timestamp_nanosec }
          let tr1 := acc.2 ++
            (if hooks.onReceipt &&
                options.handle_preprocessed_transactions_by_indexer then
              [Event.onReceiptE processed incomplete message] else [])
          let receipts1 :=
            mset incomplete.receipts receipt.receipt.receipt_id
              (some processed)
          let folded := receipt.execution_outcome.receipt_ids.foldl
            (fun (p : List (String × String) ×
                List (String × Option TransactionReceipt)) newReceiptId =>
              (mset p.1 newReceiptId txId,
               if mhas p.2 newReceiptId then p.2
               else mset p.2 newReceiptId none))
            (st.receiptToTx, receipts1)
          let incomplete1 : IncompleteTransaction :=
            { incomplete with receipts := folded.2 }
          let pending1 := mset st.pendingTransactions txId incomplete1
          let all := mvalues folded.2
          if all.all (fun r => r.isSome) then
            let complete : CompleteTransaction :=
              { transaction := incomplete.transaction,
                receipts := all.reduceOption }
            ({ pendingTransactions := mdel pending1 txId,
               receiptToTx := folded.1,
               blocksReceived := st.blocksReceived },
             tr1 ++
              (if hooks.onTransaction &&
                  options.handle_preprocessed_transactions_by_indexer then
                [Event.onTransactionE complete message] else []))
          else
            ({ pendingTransactions := pending1, receiptToTx := folded.1,
               blocksReceived := st.blocksReceived },
             tr1)
      else acc
  (stepped.1, stepped.2 ++
    (if hooks.processReceipt && options.handle_raw_events then
      [Event.processReceiptE receipt message] else []))

/-- The receipt loop over one shard. -/
def processShardReceipts2 (hooks : Hooks) (options : BlockProcessingOptions)
    (message : StreamerMessage) (acc : IndexerState2M × List Event)
    (shard : IndexerShard) : IndexerState2M × List Event :=
  shard.receipt_execution_outcomes.foldl
    (processOneReceipt2 hooks options message) acc

/-- `IndexerState.processBlock` (`src/unnamed/part_003` lines 16–120):
identical to `processBlock` except for the `blocksReceived += 1` at the
top. -/
def processBlock2 (hooks : Hooks) (options : BlockProcessingOptions)
    (st : IndexerState2M) (message : StreamerMessage) :
    IndexerState2M × List Event :=
  let st0 : IndexerState2M := { st with blocksReceived := st.blocksReceived + 1 }
  let acc0 : IndexerState2M × List Event :=
    (st0, if hooks.processBlock && options.handle_raw_events then
      [Event.processBlockE message] else [])
  let acc1 := message.shards.foldl (processShardTxs2 hooks options message) acc0
  let acc2 := message.shards.foldl
    (processShardReceipts2 hooks options message) acc1
  (acc2.1, acc2.2 ++
    (if hooks.processBlockEnd then [Event.processBlockEndE message] else []))

/-- Run `IndexerState.processBlock` over a sequence of inputs. -/
def runBlocks2 (hooks : Hooks) (st : IndexerState2M)
    (inputs : List (StreamerMessage × BlockProcessingOptions)) :
    IndexerState2M × List Event :=
  inputs.foldl
    (fun acc p =>
      let r := processBlock2 hooks p.2 acc.1 p.1
      (r.1, acc.2 ++ r.2))
    (st, [])

/-! ## The orchestrator (`runIndexer`, `src/ts/src/indexer.ts` 178–258) -/

/-- `Number.MAX_SAFE_INTEGER`. -/
def MAX_SAFE_INTEGER : Nat := 9007199254740991

/-- The resolved run configuration of `runIndexer` after range resolution:
the start height, the optional exclusive end height, whether a
post-processor (an `AutoContinue` range) is configured, and the remaining
`IndexerOptions` fields the loop reads. -/
structure RunConfig where
  stop_on_error : Bool
  preprocessEnabled : Bool
  prefetch_blocks : Nat
  postfetch_blocks : Nat
  genesis_block_height : Nat
  start_block_height : Nat
  end_block_height : Option Nat
  hasPostProcessor : Bool
deriving DecidableEq, Repr

/-- `prefetchRangeStart = Math.max(start - prefetch_blocks, genesis)`.
(Nat subtraction matches the JS arithmetic here because the result is
clamped from below by `genesis_block_height ≥ 0`.) -/
def prefetchRangeStart (c : RunConfig) : Nat :=
  max (c.start_block_height - c.prefetch_blocks) c.genesis_block_height

/-- `inPrefetch` as computed per message (lines 226–227). -/
def inPrefetch (c : RunConfig) (h : Nat) : Bool :=
  decide (prefetchRangeStart c ≤ h ∧ h < c.start_block_height)

/-- `postfetchRange.start = end_block_height ?? Number.MAX_SAFE_INTEGER`. -/
def postfetchRangeStart (c : RunConfig) : Nat :=
  c.end_block_height.getD MAX_SAFE_INTEGER

/-- `postfetchRange.end = end_block_height ? end_block_height +
postfetch_blocks : Number.MAX_SAFE_INTEGER`.  Note the JS truthiness test:
an end height of `0` is falsy and falls back to `MAX_SAFE_INTEGER`. -/
def postfetchRangeEnd (c : RunConfig) : Nat :=
  match c.end_block_height with
  | none => MAX_SAFE_INTEGER
  | some e => if e = 0 then MAX_SAFE_INTEGER else e + c.postfetch_blocks

/-- `inPostfetch` as computed per message (lines 228–229). -/
def inPostfetch (c : RunConfig) (h : Nat) : Bool :=
  decide (postfetchRangeStart c ≤ h ∧ h < postfetchRangeEnd c)

/-- The `BlockProcessingOptions` derived for one message (lines 236–242). -/
def processingOptions (c : RunConfig) (h : Nat) : BlockProcessingOptions :=
  { height := h,
    preprocess := c.preprocessEnabled,
    preprocess_new_transactions := !(inPostfetch c h),
    handle_raw_events := !(inPostfetch c h) && !(inPrefetch c h),
    handle_preprocessed_transactions_by_indexer := !(inPrefetch c h) }

/-- Observable actions of the orchestrator loop. -/
inductive RunEvent where
  | blockProcessed (h : Nat)
  | afterBlockCalled (h : Nat) (stopping : Bool)
  | saved (h : Nat)
  | handleAwaited
  | finalized
deriving DecidableEq, Repr

/-- `AutoContinue.afterBlock` (lines 116–125): persist `height + 1` unless
`stopping` (the block is inside the postfetch window). -/
def afterBlockEvents (h : Nat) (stopping : Bool) : List RunEvent :=
  if stopping then [] else [RunEvent.saved (h + 1)]

/-- The `for await (const message of receiver)` loop of `runIndexer`
(lines 225–253).  `failsAt h` says whether the indexer throws while this
block is processed; per the repository's error policy the choice is binary
at whole-block granularity, so the failure is modelled at that
granularity.  Returns the final state-machine state, the orchestrator
trace, and whether the loop was aborted by a propagated error. -/
def runLoop (hooks : Hooks) (c : RunConfig) (failsAt : Nat → Bool) :
    List StreamerMessage → IndexerStateM →
    IndexerStateM × List RunEvent × Bool
  | [], st => (st, [], false)
  | m :: rest, st =>
    let h := m.block_header.height
    let inPre := inPrefetch c h
    let inPost := inPostfetch c h
    let opts := processingOptions c h
    let st1 := (processBlock hooks opts st m).1
    if failsAt h && c.stop_on_error then
      (st1, [RunEvent.blockProcessed h], true)
    else
      let postEvts :=
        if !inPre && c.hasPostProcessor then
          RunEvent.afterBlockCalled h inPost :: afterBlockEvents h inPost
        else []
      let r := runLoop hooks c failsAt rest st1
      (r.1, RunEvent.blockProcessed h :: postEvts ++ r.2.1, r.2.2)

/-- `runIndexer`'s overall observable trace: the loop, then the `finally`
block (lines 254–257), which always awaits the pipeline handle and then
invokes `finalize` when the indexer defines it. -/
def runIndexerTrace (hooks : Hooks) (c : RunConfig) (failsAt : Nat → Bool)
    (msgs : List StreamerMessage) : List RunEvent × Bool :=
  let r := runLoop hooks c failsAt msgs IndexerStateM.empty
  (r.2.1 ++ [RunEvent.handleAwaited] ++
    (if hooks.finalize then [RunEvent.finalized] else []), r.2.2)

/-- `AutoContinue.getStartBlock` (lines 100–102):
`(await this.save_location.load()) ?? this.start_height_if_does_not_exist`.
A rejected `load()` promise propagates (there is no catch), so the load
result is embedded as `Except`: `Except.error` is a rejection and
`Except.ok none` is an absent cursor (`undefined`). -/
def getStartBlock (loadResult : Except String (Option Nat))
    (start_height_if_does_not_exist : Nat) : Except String Nat :=
  match loadResult with
  | .error e => .error e
  | .ok v => .ok (v.getD start_height_if_does_not_exist)

/-! ## The parallel ordered fetch pipeline
(`ParallelProviderStreamer.stream`, `src/ts/src/neardata.ts` 245–310)

JS runs each continuation of `scheduleOne` atomically on the single-threaded
event loop, so the only nondeterminism is which in-flight fetch completes
next.  The pipeline is therefore embedded as a labelled transition system:
a state records the reorder buffer (`results`), the emission cursor
(`nextToEmit`), the next unclaimed height (`scheduled`), the set of heights
currently being fetched (`inFlight`, one entry per active `scheduleOne`),
the messages pushed to the consumer queue so far (`emitted`, in push = FIFO
delivery order), and whether `queue.close()` was called.  A transition
completes one in-flight fetch and runs the whole synchronous completion
handler (the `finally` block of `scheduleOne`).

The provider is a function `Nat → Option StreamerMessage`: the retry loop
around `getMessage` retries transport errors forever, so each height
eventually yields its message (`some`) or a fork skip (`none`), and errors
are invisible in the completed result. -/

structure PState where
  nextToEmit : Nat
  results : List (Nat × Option StreamerMessage)
  scheduled : Nat
  inFlight : List Nat
  emitted : List StreamerMessage
  closed : Bool
deriving DecidableEq, Repr

/-- The drain loop (`while (true) { ... results.has(nextToEmit) ... }`,
lines 281–288), written with explicit fuel.  Each successful iteration
deletes the entry at `nextToEmit`, so the loop runs at most
`results.length` iterations plus a final failing lookup; any fuel of at
least `results.length + 1` computes exactly the source loop. -/
def drainLoop : Nat → Nat → List (Nat × Option StreamerMessage) →
    List StreamerMessage →
    Nat × List (Nat × Option StreamerMessage) × List StreamerMessage
  | 0, next, results, emitted => (next, results, emitted)
  | fuel + 1, next, results, emitted =>
    match mget results next with
    | none => (next, results, emitted)
    | some msg =>
        drainLoop fuel (next + 1) (mdel results next) (emitted ++ msg.toList)

/-- One completion of `scheduleOne(h)` (the `try`/`finally` body,
lines 263–298): record the fetched result, leave the in-flight set, drain
the buffer in order, then either claim the next height (sliding window) or,
if nothing is left, close the queue. -/
def completeStep (provider : Nat → Option StreamerMessage) (e : Nat)
    (s : PState) (h : Nat) : PState :=
  let results1 := mset s.results h (provider h)
  let inFlight1 := s.inFlight.erase h
  let d := drainLoop (results1.length + 1) s.nextToEmit results1 s.emitted
  if s.scheduled < e then
    { nextToEmit := d.1, results := d.2.1, emitted := d.2.2,
      scheduled := s.scheduled + 1, inFlight := inFlight1 ++ [s.scheduled],
      closed := s.closed }
  else if inFlight1.length = 0 ∧ d.2.1.length = 0 then
    { nextToEmit := d.1, results := d.2.1, emitted := d.2.2,
      scheduled := s.scheduled, inFlight := inFlight1, closed := true }
  else
    { nextToEmit := d.1, results := d.2.1, emitted := d.2.2,
      scheduled := s.scheduled, inFlight := inFlight1, closed := s.closed }

/-- The worker-priming loop (`for (let i = 0; i < this.workers && scheduled <
end; i++) scheduleOne(scheduled++)`, lines 301–305).  Each `scheduleOne`
call synchronously registers the height as in flight and suspends on the
fetch. -/
def prime (e : Nat) : Nat → PState → PState
  | 0, s => s
  | w + 1, s =>
    if s.scheduled < e then
      prime e w { s with inFlight := s.inFlight ++ [s.scheduled],
                         scheduled := s.scheduled + 1 }
    else s

/-- The state right after `stream(first, e)` primes its workers. -/
def initPState (first e workers : Nat) : PState :=
  prime e workers
    { nextToEmit := first, results := [], scheduled := first,
      inFlight := [], emitted := [], closed := false }

/-- The states the pipeline can reach: the initial state, and anything
obtained by completing one in-flight fetch. -/
inductive PReachable (provider : Nat → Option StreamerMessage)
    (first e workers : Nat) : PState → Prop where
  | init : PReachable provider first e workers (initPState first e workers)
  | step {s : PState} {h : Nat} (hs : PReachable provider first e workers s)
      (hm : h ∈ s.inFlight) :
      PReachable provider first e workers (completeStep provider e s h)

/-! ## Helper lemmas about the association-list map operations -/

theorem mget_mem {m : List (K × V)} {k : K} {v : V} (h : mget m k = some v) :
    (k, v) ∈ m := by
  induction m with
  | nil => simp [mget] at h
  | cons p rest ih =>
    rw [mget] at h
    by_cases hp : p.1 = k
    · rw [if_pos hp] at h
      injection h with hb
      have hpk : p = (k, v) := by
        obtain ⟨a, b⟩ := p
        simp only at hp hb
        rw [hp, hb]
      rw [hpk]
      exact List.mem_cons_self _ _
    · rw [if_neg hp] at h
      exact List.mem_cons_of_mem _ (ih h)

theorem mget_eq_none_of_not_mem {m : List (K × V)} {k : K}
    (h : k ∉ mkeys m) : mget m k = none := by
  induction m with
  | nil => rfl
  | cons p rest ih =>
    simp only [mkeys, List.map_cons, List.mem_cons, not_or] at h
    rw [mget, if_neg (fun hp => h.1 hp.symm)]
    exact ih h.2

theorem mem_mkeys_of_mget {m : List (K × V)} {k : K} {v : V}
    (h : mget m k = some v) : k ∈ mkeys m := by
  have := mget_mem h
  simp only [mkeys, List.mem_map]
  exact ⟨(k, v), this, rfl⟩

theorem mset_of_not_mem {m : List (K × V)} {k : K} (v : V)
    (h : k ∉ mkeys m) : mset m k v = m ++ [(k, v)] := by
  induction m with
  | nil => rfl
  | cons p rest ih =>
    simp only [mkeys, List.map_cons, List.mem_cons, not_or] at h
    rw [mset, if_neg (fun hp => h.1 hp.symm), ih h.2, List.cons_append]

theorem mget_map_self {l : List K} {g : K → V} {x : K} (hx : x ∈ l) :
    mget (l.map fun r => (r, g r)) x = some (g x) := by
  induction l with
  | nil => simp at hx
  | cons a rest ih =>
    rw [List.map_cons, mget]
    by_cases ha : a = x
    · rw [if_pos ha, ha]
    · rw [if_neg ha]
      rcases List.mem_cons.mp hx with h | h
      · exact absurd h.symm ha
      · exact ih h

theorem mget_map_self_none {l : List K} {g : K → V} {x : K} (hx : x ∉ l) :
    mget (l.map fun r => (r, g r)) x = none := by
  apply mget_eq_none_of_not_mem
  simp only [mkeys, List.map_map, List.mem_map]
  rintro ⟨r, hr, hrx⟩
  exact hx (by simpa using hrx ▸ hr)

theorem mset_map_self {l : List K} {g : K → V} {x : K} (hnd : l.Nodup)
    (hx : x ∈ l) (v : V) :
    mset (l.map fun r => (r, g r)) x v =
      l.map fun r => (r, if r = x then v else g r) := by
  induction l with
  | nil => simp at hx
  | cons a rest ih =>
    rcases List.nodup_cons.mp hnd with ⟨hna, hndr⟩
    rw [List.map_cons, mset]
    by_cases ha : a = x
    · rw [if_pos ha, List.map_cons, if_pos ha, ha]
      congr 1
      apply List.map_congr_left
      intro r hr
      rw [if_neg]
      intro hrx
      exact hna (ha ▸ hrx ▸ hr)
    · rw [if_neg ha, List.map_cons, if_neg ha]
      rcases List.mem_cons.mp hx with h | h
      · exact absurd h.symm ha
      · rw [ih hndr h]

theorem foldl_mset_const_fresh {l : List K} (v : V) :
    ∀ m : List (K × V), (∀ x ∈ l, x ∉ mkeys m) → l.Nodup →
      l.foldl (fun acc r => mset acc r v) m = m ++ l.map (fun r => (r, v)) := by
  induction l with
  | nil => intro m _ _; simp
  | cons a rest ih =>
    intro m hdisj hnd
    rw [List.foldl_cons, mset_of_not_mem v (hdisj a (List.mem_cons_self a rest))]
    rw [ih (m ++ [(a, v)]) ?_ (List.Nodup.of_cons hnd)]
    · simp
    · intro x hx
      simp only [mkeys, List.map_append, List.mem_append] at *
      rcases List.nodup_cons.mp hnd with ⟨hna, _⟩
      push_neg
      refine ⟨fun hxm => hdisj x (List.mem_cons_of_mem _ hx) hxm, ?_⟩
      simp only [List.map_cons, List.map_nil, List.mem_singleton]
      intro hxa
      exact hna (hxa ▸ hx)

theorem mkeys_mdel {m : List (K × V)} (k : K) :
    mkeys (mdel m k) = (mkeys m).erase k := by
  induction m with
  | nil => rfl
  | cons p rest ih =>
    by_cases hp : p.1 = k
    · rw [mdel, if_pos hp]
      have h2 : mkeys (p :: rest) = p.1 :: mkeys rest := rfl
      rw [h2, hp, List.erase_cons_head]
    · rw [mdel, if_neg hp]
      have h1 : mkeys (p :: mdel rest k) = p.1 :: mkeys (mdel rest k) := rfl
      have h2 : mkeys (p :: rest) = p.1 :: mkeys rest := rfl
      rw [h1, h2, ih, List.erase_cons_tail (by simp [hp])]

theorem mdel_length_lt {m : List (K × V)} {k : K} {v : V}
    (h : mget m k = some v) : (mdel m k).length < m.length := by
  induction m with
  | nil => simp [mget] at h
  | cons p rest ih =>
    rw [mget] at h
    rw [mdel]
    by_cases hp : p.1 = k
    · rw [if_pos hp]
      simp
    · rw [if_neg hp] at h
      rw [if_neg hp, List.length_cons, List.length_cons]
      exact Nat.succ_lt_succ (ih h)

theorem mdel_subset {m : List (K × V)} (k : K) :
    ∀ kv ∈ mdel m k, kv ∈ m := by
  induction m with
  | nil => intro kv h; simp [mdel] at h
  | cons p rest ih =>
    intro kv h
    rw [mdel] at h
    by_cases hp : p.1 = k
    · rw [if_pos hp] at h
      exact List.mem_cons_of_mem _ h
    · rw [if_neg hp] at h
      rcases List.mem_cons.mp h with h | h
      · exact h ▸ List.mem_cons_self _ _
      · exact List.mem_cons_of_mem _ (ih kv h)

/-! ## Claim C8: success predicates -/

/-- Agreement of the two `isSuccessful` implementations (the inline switch in
`processBlock` and `DefaultTransactionReceipt`'s delegation to
`isReceiptSuccessful`). -/
theorem default_isSuccessful_agrees (tr : TransactionReceipt) (u : Bool) :
    DefaultTransactionReceipt.isSuccessful tr u = tr.isSuccessful u := by
  unfold DefaultTransactionReceipt.isSuccessful TransactionReceipt.isSuccessful
    isReceiptSuccessful
  cases tr.receipt.execution_outcome.status <;> rfl

/-- C8: a resolved receipt's `isSuccessful(ifUnknown)` is `false` on
`Failure`, `true` on `SuccessValue` and `SuccessReceiptId`, and the
caller-supplied default on `Unknown`; and `allReceiptsSuccessful()` of a
completed transaction is `true` iff every receipt's `isSuccessful(true)`
is `true`. -/
theorem c8_success_predicate (tr : TransactionReceipt) (u : Bool)
    (t : CompleteTransaction) :
    (tr.receipt.execution_outcome.status = .Failure →
      tr.isSuccessful u = false) ∧
    (∀ v, tr.receipt.execution_outcome.status = .SuccessValue v →
      tr.isSuccessful u = true) ∧
    (∀ i, tr.receipt.execution_outcome.status = .SuccessReceiptId i →
      tr.isSuccessful u = true) ∧
    (tr.receipt.execution_outcome.status = .Unknown →
      tr.isSuccessful u = u) ∧
    (t.allReceiptsSuccessful = true ↔
      ∀ r ∈ t.receipts, r.isSuccessful true = true) := by
  refine ⟨?_, ?_, ?_, ?_, ?_⟩
  · intro h; unfold TransactionReceipt.isSuccessful; rw [h]
  · intro v h; unfold TransactionReceipt.isSuccessful; rw [h]
  · intro i h; unfold TransactionReceipt.isSuccessful; rw [h]
  · intro h; unfold TransactionReceipt.isSuccessful; rw [h]
  · unfold CompleteTransaction.allReceiptsSuccessful
    exact List.all_eq_true

/-- Witness for C8 at a concrete failed receipt. -/
theorem c8_success_predicate_witness :
    TransactionReceipt.isSuccessful
      ⟨⟨⟨ExecutionStatusView.Failure, [], []⟩, ⟨"r1", "alice"⟩⟩, 1, "0"⟩
      true = false :=
  (c8_success_predicate
    ⟨⟨⟨ExecutionStatusView.Failure, [], []⟩, ⟨"r1", "alice"⟩⟩, 1, "0"⟩ true
    ⟨⟨⟨"t1", "s", "r"⟩, []⟩, []⟩).1 rfl

/-! ## Claim C3: visibility flags -/

/-- C3: `preprocess_new_transactions` is false exactly in the postfetch
region; `handle_raw_events` is false exactly in the prefetch or postfetch
region; `handle_preprocessed_transactions_by_indexer` is false exactly in
the prefetch region. -/
theorem c3_visibility_flags (c : RunConfig) (h : Nat) :
    ((processingOptions c h).preprocess_new_transactions = false ↔
      inPostfetch c h = true) ∧
    ((processingOptions c h).handle_raw_events = false ↔
      (inPrefetch c h = true ∨ inPostfetch c h = true)) ∧
    ((processingOptions c h).handle_preprocessed_transactions_by_indexer
        = false ↔ inPrefetch c h = true) := by
  unfold processingOptions
  refine ⟨?_, ?_, ?_⟩ <;>
    cases hpre : inPrefetch c h <;> cases hpost : inPostfetch c h <;> simp

/-! ## Claim C9: load failures during range resolution -/

/-- Counterexample for C9: a failing `load()` is not mapped to the default
start height; the rejection propagates out of `getStartBlock`. -/
theorem c9_counterexample :
    getStartBlock (Except.error "io error") 7 = Except.error "io error" ∧
    getStartBlock (Except.error "io error") 7 ≠ Except.ok 7 := by
  constructor
  · rfl
  · intro h
    simp [getStartBlock] at h

/-- C9 (amended): an absent cursor (`undefined`) resolves to the
caller-supplied default start, a present cursor is used as-is, but a
failure of `load()` propagates out of range resolution unchanged. -/
theorem c9_start_resolution (d h : Nat) (e : String) :
    getStartBlock (Except.ok none) d = Except.ok d ∧
    getStartBlock (Except.ok (some h)) d = Except.ok h ∧
    getStartBlock (Except.error e) d = Except.error e :=
  ⟨rfl, rfl, rfl⟩

/-! ## Claims C5 and C4: the orchestrator loop -/

/-- Height saved by a `saved` event, if any. -/
def savedHeight : RunEvent → Option Nat
  | .saved h => some h
  | _ => none

/-- Height of an `afterBlockCalled` event, if any. -/
def afterBlockHeight : RunEvent → Option Nat
  | .afterBlockCalled h _ => some h
  | _ => none

theorem runLoop_no_finalized (hooks : Hooks) (c : RunConfig)
    (failsAt : Nat → Bool) :
    ∀ (msgs : List StreamerMessage) (st : IndexerStateM),
      RunEvent.finalized ∉ (runLoop hooks c failsAt msgs st).2.1 := by
  intro msgs
  induction msgs with
  | nil => intro st; simp [runLoop]
  | cons m rest ih =>
    intro st
    rw [runLoop]
    by_cases hfail :
        (failsAt m.block_header.height && c.stop_on_error) = true
    · rw [if_pos hfail]
      simp
    · rw [if_neg hfail]
      by_cases hpre :
          (!inPrefetch c m.block_header.height && c.hasPostProcessor) = true
      · rw [if_pos hpre]
        unfold afterBlockEvents
        by_cases hpost : inPostfetch c m.block_header.height = true <;>
          simp [hpost, ih]
      · rw [if_neg hpre]
        simp [ih]

/-- C5: for every run — whether it ends by range exhaustion or by an error
propagated under stop-on-error — the orchestrator trace always ends by
awaiting the pipeline handle and then invoking the finalize hook, which
therefore fires exactly once. -/
theorem c5_finalize_exactly_once (hooks : Hooks) (c : RunConfig)
    (failsAt : Nat → Bool) (msgs : List StreamerMessage)
    (hfin : hooks.finalize = true) :
    (runIndexerTrace hooks c failsAt msgs).1.count RunEvent.finalized = 1 ∧
    (runIndexerTrace hooks c failsAt msgs).1 =
      (runLoop hooks c failsAt msgs IndexerStateM.empty).2.1 ++
        [RunEvent.handleAwaited, RunEvent.finalized] := by
  unfold runIndexerTrace
  rw [hfin]
  constructor
  · rw [List.count_append, List.count_append]
    rw [List.count_eq_zero.mpr (runLoop_no_finalized hooks c failsAt msgs _)]
    rfl
  · simp

/-- Witness for C5 on a concrete two-message run that aborts on error. -/
theorem c5_finalize_exactly_once_witness :
    (runIndexerTrace hooksAll
      ⟨true, false, 0, 0, 0, 100, some 102, false⟩ (fun h => h == 101)
      [⟨⟨100, "0"⟩, []⟩, ⟨⟨101, "0"⟩, []⟩, ⟨⟨102, "0"⟩, []⟩]).1.count
        RunEvent.finalized = 1 ∧
    (runIndexerTrace hooksAll
      ⟨true, false, 0, 0, 0, 100, some 102, false⟩ (fun h => h == 101)
      [⟨⟨100, "0"⟩, []⟩, ⟨⟨101, "0"⟩, []⟩, ⟨⟨102, "0"⟩, []⟩]).1 =
      (runLoop hooksAll
        ⟨true, false, 0, 0, 0, 100, some 102, false⟩ (fun h => h == 101)
        [⟨⟨100, "0"⟩, []⟩, ⟨⟨101, "0"⟩, []⟩, ⟨⟨102, "0"⟩, []⟩]
        IndexerStateM.empty).2.1 ++
        [RunEvent.handleAwaited, RunEvent.finalized] :=
  c5_finalize_exactly_once hooksAll
    ⟨true, false, 0, 0, 0, 100, some 102, false⟩ (fun h => h == 101)
    [⟨⟨100, "0"⟩, []⟩, ⟨⟨101, "0"⟩, []⟩, ⟨⟨102, "0"⟩, []⟩] rfl

/-- C4: in an error-free run with a resume-cursor collaborator configured,
the post-processor is invoked exactly for the processed heights outside the
prefetch region, and `h + 1` is persisted exactly for the processed heights
outside both the prefetch and the postfetch regions (persistence is
withheld inside the postfetch region). -/
theorem c4_resume_cursor_persistence (hooks : Hooks) (c : RunConfig)
    (failsAt : Nat → Bool) (msgs : List StreamerMessage) (st : IndexerStateM)
    (hpp : c.hasPostProcessor = true) (hok : ∀ h, failsAt h = false) :
    (runLoop hooks c failsAt msgs st).2.1.filterMap savedHeight =
      msgs.filterMap (fun m =>
        if inPrefetch c m.block_header.height = false ∧
            inPostfetch c m.block_header.height = false then
          some (m.block_header.height + 1)
        else none) ∧
    (runLoop hooks c failsAt msgs st).2.1.filterMap afterBlockHeight =
      msgs.filterMap (fun m =>
        if inPrefetch c m.block_header.height = false then
          some m.block_header.height
        else none) := by
  induction msgs generalizing st with
  | nil => simp [runLoop]
  | cons m rest ih =>
    rw [runLoop]
    rw [hok m.block_header.height]
    simp only [Bool.false_and, if_neg (by simp : ¬ (false = true))]
    rcases ih ((processBlock hooks
        (processingOptions c m.block_header.height) st m).1) with ⟨ih1, ih2⟩
    constructor
    · rw [List.filterMap_cons, List.filterMap_append, ih1]
      by_cases hpre : inPrefetch c m.block_header.height = true
      · rw [if_neg (by simp [hpre, hpp])]
        simp [savedHeight, hpre]
      · rw [if_pos (by simp [Bool.not_eq_true] at hpre; simp [hpre, hpp])]
        simp only [Bool.not_eq_true] at hpre
        unfold afterBlockEvents
        by_cases hpost : inPostfetch c m.block_header.height = true
        · simp [savedHeight, hpre, hpost]
        · simp only [Bool.not_eq_true] at hpost
          simp [savedHeight, hpre, hpost]
    · rw [List.filterMap_cons, List.filterMap_append, ih2]
      by_cases hpre : inPrefetch c m.block_header.height = true
      · rw [if_neg (by simp [hpre, hpp])]
        simp [afterBlockHeight, hpre]
      · rw [if_pos (by simp [Bool.not_eq_true] at hpre; simp [hpre, hpp])]
        simp only [Bool.not_eq_true] at hpre
        unfold afterBlockEvents
        by_cases hpost : inPostfetch c m.block_header.height = true
        · simp [afterBlockHeight, savedHeight, hpre, hpost]
        · simp only [Bool.not_eq_true] at hpost
          simp [afterBlockHeight, savedHeight, hpre, hpost]

/-- Witness for C4: margins 1/1 around the range `[100, 102)`, heights
99–102 delivered, genesis 0, with an `AutoContinue` post-processor. -/
theorem c4_resume_cursor_persistence_witness :
    (runLoop hooksAll ⟨false, true, 1, 1, 0, 100, some 102, true⟩
      (fun _ => false)
      [⟨⟨99, "0"⟩, []⟩, ⟨⟨100, "0"⟩, []⟩, ⟨⟨101, "0"⟩, []⟩, ⟨⟨102, "0"⟩, []⟩]
      IndexerStateM.empty).2.1.filterMap savedHeight =
      [⟨⟨99, "0"⟩, []⟩, ⟨⟨100, "0"⟩, []⟩, ⟨⟨101, "0"⟩, []⟩,
        ⟨⟨102, "0"⟩, []⟩].filterMap
        (fun m : StreamerMessage =>
          if inPrefetch ⟨false, true, 1, 1, 0, 100, some 102, true⟩
              m.block_header.height = false ∧
            inPostfetch ⟨false, true, 1, 1, 0, 100, some 102, true⟩
              m.block_header.height = false then
            some (m.block_header.height + 1)
          else none) ∧
    (runLoop hooksAll ⟨false, true, 1, 1, 0, 100, some 102, true⟩
      (fun _ => false)
      [⟨⟨99, "0"⟩, []⟩, ⟨⟨100, "0"⟩, []⟩, ⟨⟨101, "0"⟩, []⟩, ⟨⟨102, "0"⟩, []⟩]
      IndexerStateM.empty).2.1.filterMap afterBlockHeight =
      [⟨⟨99, "0"⟩, []⟩, ⟨⟨100, "0"⟩, []⟩, ⟨⟨101, "0"⟩, []⟩,
        ⟨⟨102, "0"⟩, []⟩].filterMap
        (fun m : StreamerMessage =>
          if inPrefetch ⟨false, true, 1, 1, 0, 100, some 102, true⟩
              m.block_header.height = false then
            some m.block_header.height
          else none) :=
  c4_resume_cursor_persistence hooksAll
    ⟨false, true, 1, 1, 0, 100, some 102, true⟩ (fun _ => false)
    [⟨⟨99, "0"⟩, []⟩, ⟨⟨100, "0"⟩, []⟩, ⟨⟨101, "0"⟩, []⟩, ⟨⟨102, "0"⟩, []⟩]
    IndexerStateM.empty rfl (fun _ => rfl)

/-! ## Claim C10: the two state machines are equivalent -/

/-- View an `InternalIndexerState` state as an `IndexerState` state with a
given `blocksReceived` counter. -/
def liftState (st : IndexerStateM) (n : Nat) : IndexerState2M :=
  ⟨st.pendingTransactions, st.receiptToTx, n⟩

theorem processTxInner2_lift (hooks : Hooks) (opts : BlockProcessingOptions)
    (msg : StreamerMessage) (n : Nat) (acc : IndexerStateM × List Event)
    (tx : IndexerTransactionWithOutcome) :
    processTxInner2 hooks opts msg (liftState acc.1 n, acc.2) tx =
      (liftState (processTxInner hooks opts msg acc tx).1 n,
       (processTxInner hooks opts msg acc tx).2) := by
  obtain ⟨st, tr⟩ := acc
  simp only [processTxInner, processTxInner2, liftState]
  by_cases h1 : opts.preprocess = true
  · simp only [h1, if_true]
    by_cases h2 : opts.preprocess_new_transactions = true
    · simp [h2]
    · simp [h2]
  · simp [h1]

theorem processOneReceipt2_lift (hooks : Hooks)
    (opts : BlockProcessingOptions) (msg : StreamerMessage) (n : Nat)
    (acc : IndexerStateM × List Event)
    (receipt : IndexerExecutionOutcomeWithReceipt) :
    processOneReceipt2 hooks opts msg (liftState acc.1 n, acc.2) receipt =
      (liftState (processOneReceipt hooks opts msg acc receipt).1 n,
       (processOneReceipt hooks opts msg acc receipt).2) := by
  obtain ⟨st, tr⟩ := acc
  simp only [processOneReceipt, processOneReceipt2, liftState]
  cases hm : mget st.receiptToTx receipt.receipt.receipt_id with
  | none => rfl
  | some txId =>
    simp only
    by_cases h1 : txId ≠ "" ∧ opts.preprocess = true
    · rw [if_pos h1, if_pos h1]
      cases hp : mget st.pendingTransactions txId with
      | none => rfl
      | some inc =>
        simp only
        split <;> rfl
    · rw [if_neg h1, if_neg h1]

theorem processShardTxs2_lift (hooks : Hooks) (opts : BlockProcessingOptions)
    (msg : StreamerMessage) (n : Nat) (acc : IndexerStateM × List Event)
    (shard : IndexerShard) :
    processShardTxs2 hooks opts msg (liftState acc.1 n, acc.2) shard =
      (liftState (processShardTxs hooks opts msg acc shard).1 n,
       (processShardTxs hooks opts msg acc shard).2) := by
  unfold processShardTxs processShardTxs2
  cases shard.chunk with
  | none => rfl
  | some chunk =>
    simp only
    induction chunk.transactions generalizing acc with
    | nil => rfl
    | cons tx rest ih =>
      rw [List.foldl_cons, List.foldl_cons, processTxInner2_lift,
        ih (processTxInner hooks opts msg acc tx)]

theorem processShardReceipts2_lift (hooks : Hooks)
    (opts : BlockProcessingOptions) (msg : StreamerMessage) (n : Nat)
    (acc : IndexerStateM × List Event) (shard : IndexerShard) :
    processShardReceipts2 hooks opts msg (liftState acc.1 n, acc.2) shard =
      (liftState (processShardReceipts hooks opts msg acc shard).1 n,
       (processShardReceipts hooks opts msg acc shard).2) := by
  unfold processShardReceipts processShardReceipts2
  induction shard.receipt_execution_outcomes generalizing acc with
  | nil => rfl
  | cons r rest ih =>
    rw [List.foldl_cons, List.foldl_cons, processOneReceipt2_lift,
      ih (processOneReceipt hooks opts msg acc r)]

theorem foldl_shards2_lift (n : Nat)
    (g2 : IndexerState2M × List Event → IndexerShard →
      IndexerState2M × List Event)
    (g1 : IndexerStateM × List Event → IndexerShard →
      IndexerStateM × List Event)
    (hg : ∀ acc shard, g2 (liftState acc.1 n, acc.2) shard =
      (liftState (g1 acc shard).1 n, (g1 acc shard).2)) :
    ∀ (shards : List IndexerShard) (acc : IndexerStateM × List Event),
      shards.foldl g2 (liftState acc.1 n, acc.2) =
        (liftState (shards.foldl g1 acc).1 n, (shards.foldl g1 acc).2) := by
  intro shards
  induction shards with
  | nil => intro acc; rfl
  | cons s rest ih =>
    intro acc
    rw [List.foldl_cons, List.foldl_cons, hg, ih (g1 acc s)]

theorem processBlock2_lift (hooks : Hooks) (opts : BlockProcessingOptions)
    (st : IndexerStateM) (n : Nat) (msg : StreamerMessage) :
    processBlock2 hooks opts (liftState st n) msg =
      (liftState (processBlock hooks opts st msg).1 (n + 1),
       (processBlock hooks opts st msg).2) := by
  unfold processBlock processBlock2
  simp only
  have h0 : ({ liftState st n with
      blocksReceived := (liftState st n).blocksReceived + 1 } :
      IndexerState2M) = liftState st (n + 1) := rfl
  rw [h0]
  have e1 := foldl_shards2_lift (n + 1)
    (processShardTxs2 hooks opts msg) (processShardTxs hooks opts msg)
    (fun acc shard => processShardTxs2_lift hooks opts msg (n + 1) acc shard)
    msg.shards
    (st, if hooks.processBlock && opts.handle_raw_events then
      [Event.processBlockE msg] else [])
  rw [e1]
  have e2 := foldl_shards2_lift (n + 1)
    (processShardReceipts2 hooks opts msg)
    (processShardReceipts hooks opts msg)
    (fun acc shard =>
      processShardReceipts2_lift hooks opts msg (n + 1) acc shard)
    msg.shards
    (msg.shards.foldl (processShardTxs hooks opts msg)
      (st, if hooks.processBlock && opts.handle_raw_events then
        [Event.processBlockE msg] else []))
  rw [e2]

theorem runBlocks2_lift (hooks : Hooks) :
    ∀ (inputs : List (StreamerMessage × BlockProcessingOptions))
      (st : IndexerStateM) (n : Nat) (tr : List Event),
      inputs.foldl
        (fun acc p =>
          let r := processBlock2 hooks p.2 acc.1 p.1
          (r.1, acc.2 ++ r.2)) (liftState st n, tr) =
      (liftState
        (inputs.foldl
          (fun acc p =>
            let r := processBlock hooks p.2 acc.1 p.1
            (r.1, acc.2 ++ r.2)) (st, tr)).1 (n + inputs.length),
       (inputs.foldl
          (fun acc p =>
            let r := processBlock hooks p.2 acc.1 p.1
            (r.1, acc.2 ++ r.2)) (st, tr)).2) := by
  intro inputs
  induction inputs with
  | nil => intro st n tr; rfl
  | cons p rest ih =>
    intro st n tr
    rw [List.foldl_cons, List.foldl_cons]
    simp only [processBlock2_lift]
    rw [ih (processBlock hooks p.2 st p.1).1 (n + 1)
      (tr ++ (processBlock hooks p.2 st p.1).2)]
    have harith : n + 1 + rest.length = n + (rest.length + 1) := by omega
    rw [harith]
    rfl

/-- C10: the two correlation state machines are observationally equivalent:
over any sequence of `(message, options)` inputs and any hook set, they
produce the same callback trace (same callbacks, same arguments, same
order) and the same `pendingTransactions` and `receiptToTx` maps; the only
difference is the `blocksReceived` counter, which grows by the number of
processed messages. -/
theorem c10_state_machines_equivalent (hooks : Hooks)
    (inputs : List (StreamerMessage × BlockProcessingOptions))
    (st : IndexerStateM) (n : Nat) :
    runBlocks2 hooks (liftState st n) inputs =
      (liftState (runBlocks hooks st inputs).1 (n + inputs.length),
       (runBlocks hooks st inputs).2) := by
  unfold runBlocks runBlocks2
  exact runBlocks2_lift hooks inputs st n []

/-! ## Claim C6: open-transaction destruction -/

/-- Test for a completed-transaction callback event. -/
def isOnTx : Event → Bool
  | .onTransactionE _ _ => true
  | _ => false

/-- Counterexample for C6: a transaction registered with zero initial
receipt ids is not destroyed upon registration — after its block is fully
processed (preprocessing on, all flags set) it is still in the open set,
and no completed-transaction callback fired.  Completion is only ever
tested in the receipt-resolution path, which such a transaction never
enters. -/
theorem c6_counterexample :
    (processBlock hooksAll ⟨100, true, true, true, true⟩
        IndexerStateM.empty
        ⟨⟨100, "0"⟩, [⟨0, some ⟨[⟨⟨"t1", "a", "b"⟩, []⟩]⟩, []⟩]⟩).1.pendingTransactions
      = [("t1", ⟨⟨⟨"t1", "a", "b"⟩, []⟩, []⟩)] ∧
    (processBlock hooksAll ⟨100, true, true, true, true⟩
        IndexerStateM.empty
        ⟨⟨100, "0"⟩, [⟨0, some ⟨[⟨⟨"t1", "a", "b"⟩, []⟩]⟩, []⟩]⟩).1.pendingTransactions
      ≠ [] ∧
    (processBlock hooksAll ⟨100, true, true, true, true⟩
        IndexerStateM.empty
        ⟨⟨100, "0"⟩, [⟨0, some ⟨[⟨⟨"t1", "a", "b"⟩, []⟩]⟩, []⟩]⟩).2.filter isOnTx
      = [] := by
  refine ⟨by decide, by decide, by decide⟩

/-- C6 (amended): an open transaction is removed from the open set — with
the completed-transaction callback firing — the instant a receipt
resolution leaves every entry of its receipt mapping resolved; but a
transaction registered with zero initial receipt ids is not destroyed at
registration: it stays in the open set, because completion is only tested
when a receipt resolves. -/
theorem c6_open_transaction_lifecycle
    (tx : IndexerTransactionWithOutcome) (hdr : BlockHeaderView) (sid : Nat)
    (r : String) (rec : IndexerExecutionOutcomeWithReceipt)
    (hh : tx.transaction.hash ≠ "")
    (hr : rec.receipt.receipt_id = r)
    (hfol : rec.execution_outcome.receipt_ids = []) :
    (tx.outcome_receipt_ids = [] →
      (processBlock hooksAll ⟨hdr.height, true, true, true, true⟩
          IndexerStateM.empty
          ⟨hdr, [⟨sid, some ⟨[tx]⟩, []⟩]⟩).1.pendingTransactions
        = [(tx.transaction.hash, ⟨tx, []⟩)] ∧
      (processBlock hooksAll ⟨hdr.height, true, true, true, true⟩
          IndexerStateM.empty
          ⟨hdr, [⟨sid, some ⟨[tx]⟩, []⟩]⟩).2.filter isOnTx = []) ∧
    (tx.outcome_receipt_ids = [r] →
      (processBlock hooksAll ⟨hdr.height, true, true, true, true⟩
          IndexerStateM.empty
          ⟨hdr, [⟨sid, some ⟨[tx]⟩, [rec]⟩]⟩).1.pendingTransactions = [] ∧
      (processBlock hooksAll ⟨hdr.height, true, true, true, true⟩
          IndexerStateM.empty
          ⟨hdr, [⟨sid, some ⟨[tx]⟩, [rec]⟩]⟩).2.filter isOnTx
        = [Event.onTransactionE
            ⟨tx, [⟨rec, hdr.height, hdr.timestamp_nanosec⟩]⟩
            ⟨hdr, [⟨sid, some ⟨[tx]⟩, [rec]⟩]⟩]) := by
  constructor
  · intro hids
    unfold processBlock processShardTxs processTxInner processShardReceipts
    simp [hids, hooksAll, mset, isOnTx, IndexerStateM.empty]
  · intro hids
    simp only [processBlock, processShardTxs, processTxInner,
      processShardReceipts, processOneReceipt, hids, hr, hfol, hooksAll,
      IndexerStateM.empty, List.foldl_cons, List.foldl_nil]
    simp [mset, mget, mdel, mvalues, mhas, isOnTx, hh]

/-- Witness for the amended C6 at a concrete transaction and receipt. -/
theorem c6_open_transaction_lifecycle_witness :
    (processBlock hooksAll ⟨100, true, true, true, true⟩
        IndexerStateM.empty
        ⟨⟨100, "7"⟩, [⟨0, some ⟨[⟨⟨"t1", "a", "b"⟩, ["r1"]⟩]⟩,
          [⟨⟨ExecutionStatusView.SuccessValue none, [], []⟩,
            ⟨"r1", "b"⟩⟩]⟩]⟩).1.pendingTransactions = [] ∧
    (processBlock hooksAll ⟨100, true, true, true, true⟩
        IndexerStateM.empty
        ⟨⟨100, "7"⟩, [⟨0, some ⟨[⟨⟨"t1", "a", "b"⟩, ["r1"]⟩]⟩,
          [⟨⟨ExecutionStatusView.SuccessValue none, [], []⟩,
            ⟨"r1", "b"⟩⟩]⟩]⟩).2.filter isOnTx
      = [Event.onTransactionE
          ⟨⟨⟨"t1", "a", "b"⟩, ["r1"]⟩,
            [⟨⟨⟨ExecutionStatusView.SuccessValue none, [], []⟩,
              ⟨"r1", "b"⟩⟩, 100, "7"⟩]⟩
          ⟨⟨100, "7"⟩, [⟨0, some ⟨[⟨⟨"t1", "a", "b"⟩, ["r1"]⟩]⟩,
            [⟨⟨ExecutionStatusView.SuccessValue none, [], []⟩,
              ⟨"r1", "b"⟩⟩]⟩]⟩] :=
  (c6_open_transaction_lifecycle ⟨⟨"t1", "a", "b"⟩, ["r1"]⟩ ⟨100, "7"⟩ 0 "r1"
    ⟨⟨ExecutionStatusView.SuccessValue none, [], []⟩, ⟨"r1", "b"⟩⟩
    (by decide) rfl rfl).2 rfl

/-! ## Claims C2 and C7: the ordered fetch pipeline -/

theorem filterMap_cons_toList {α β : Type} (f : α → Option β) (a : α)
    (l : List α) :
    List.filterMap f (a :: l) = (f a).toList ++ List.filterMap f l := by
  cases h : f a <;> simp [List.filterMap_cons, h]

/-- Behaviour of the drain loop under the reorder-buffer invariant: given
that the buffer holds provider results for exactly the completed heights in
`[next, sched)` not in the in-flight set `F`, draining moves the cursor
forward, appends those messages in height order, and preserves the
partition. -/
theorem drainLoop_spec (provider : Nat → Option StreamerMessage)
    (F : List Nat) (sched : Nat) :
    ∀ (fuel next : Nat) (results : List (Nat × Option StreamerMessage))
      (emitted : List StreamerMessage),
      results.length < fuel →
      (∀ kv ∈ results, kv.2 = provider kv.1) →
      (mkeys results ++ F).Nodup →
      (∀ x, (x ∈ mkeys results ++ F) ↔ (next ≤ x ∧ x < sched)) →
      next ≤ sched →
      (∀ kv ∈ (drainLoop fuel next results emitted).2.1,
        kv.2 = provider kv.1) ∧
      (mkeys (drainLoop fuel next results emitted).2.1 ++ F).Nodup ∧
      (∀ x, (x ∈ mkeys (drainLoop fuel next results emitted).2.1 ++ F) ↔
        ((drainLoop fuel next results emitted).1 ≤ x ∧ x < sched)) ∧
      (drainLoop fuel next results emitted).2.2 =
        emitted ++ (List.range' next
          ((drainLoop fuel next results emitted).1 - next)).filterMap
            provider ∧
      next ≤ (drainLoop fuel next results emitted).1 ∧
      (drainLoop fuel next results emitted).1 ≤ sched := by
  intro fuel
  induction fuel with
  | zero =>
    intro next results emitted hlen
    omega
  | succ fuel ih =>
    intro next results emitted hlen hv hnd hpart hns
    rw [drainLoop]
    cases hm : mget results next with
    | none =>
      simp only
      exact ⟨hv, hnd, hpart, by simp, Nat.le_refl next, hns⟩
    | some v =>
      simp only
      have hvnext : v = provider next := hv (next, v) (mget_mem hm)
      subst hvnext
      have hnextmem : next ∈ mkeys results := mem_mkeys_of_mget hm
      have hnextsched : next < sched :=
        ((hpart next).mp (List.mem_append_left F hnextmem)).2
      have hkeysnd : (mkeys results).Nodup := (List.nodup_append.mp hnd).1
      have hdisj : List.Disjoint (mkeys results) F :=
        (List.nodup_append.mp hnd).2.2
      have hnotF : next ∉ F := fun hF => hdisj hnextmem hF
      have hkeys : mkeys (mdel results next) = (mkeys results).erase next :=
        mkeys_mdel next
      have hnd' : (mkeys (mdel results next) ++ F).Nodup := by
        rw [hkeys]
        exact List.Nodup.sublist
          (List.Sublist.append_right (List.erase_sublist next (mkeys results)) F)
          hnd
      have hpart' : ∀ x, (x ∈ mkeys (mdel results next) ++ F) ↔
          (next + 1 ≤ x ∧ x < sched) := by
        intro x
        rw [hkeys]
        constructor
        · intro hx
          rcases List.mem_append.mp hx with hx | hx
          · rcases (List.Nodup.mem_erase_iff hkeysnd).mp hx with ⟨hne, hxm⟩
            have := (hpart x).mp (List.mem_append_left F hxm)
            omega
          · have := (hpart x).mp (List.mem_append_right _ hx)
            have hne : x ≠ next := fun he => hnotF (he ▸ hx)
            omega
        · intro hx
          have := (hpart x).mpr ⟨by omega, hx.2⟩
          rcases List.mem_append.mp this with hxm | hxm
          · exact List.mem_append_left F
              ((List.Nodup.mem_erase_iff hkeysnd).mpr ⟨by omega, hxm⟩)
          · exact List.mem_append_right _ hxm
      have hlen' : (mdel results next).length < fuel := by
        have := mdel_length_lt hm
        omega
      have hv' : ∀ kv ∈ mdel results next, kv.2 = provider kv.1 :=
        fun kv hkv => hv kv (mdel_subset next kv hkv)
      have hns' : next + 1 ≤ sched := hnextsched
      rcases ih (next + 1) (mdel results next)
        (emitted ++ (provider next).toList)
        hlen' hv' hnd' hpart' hns' with ⟨c1, c2, c3, c4, c5, c6⟩
      refine ⟨c1, c2, c3, ?_, by omega, c6⟩
      rw [c4]
      have hk : (drainLoop fuel (next + 1) (mdel results next)
          (emitted ++ (provider next).toList)).1 - next =
        ((drainLoop fuel (next + 1) (mdel results next)
          (emitted ++ (provider next).toList)).1 - (next + 1)) + 1 := by
        omega
      rw [hk, List.range'_succ, filterMap_cons_toList, List.append_assoc]

/-- The pipeline invariant: the emitted messages are exactly the provider's
non-absent results on `[first, nextToEmit)` in height order; the reorder
buffer and the in-flight set partition `[nextToEmit, scheduled)`; buffer
entries hold the provider's result for their height; and a closed pipeline
has drained and fetched everything. -/
structure PInv (provider : Nat → Option StreamerMessage) (first e : Nat)
    (s : PState) : Prop where
  emitted_eq : s.emitted =
    (List.range' first (s.nextToEmit - first)).filterMap provider
  first_le : first ≤ s.nextToEmit
  next_le_sched : s.nextToEmit ≤ s.scheduled
  sched_le : s.scheduled ≤ max first e
  values_eq : ∀ kv ∈ s.results, kv.2 = provider kv.1
  nodup : (mkeys s.results ++ s.inFlight).Nodup
  partition : ∀ x, (x ∈ mkeys s.results ++ s.inFlight) ↔
    (s.nextToEmit ≤ x ∧ x < s.scheduled)
  closed_spec : s.closed = true →
    s.inFlight = [] ∧ s.results = [] ∧ s.nextToEmit = s.scheduled ∧
      e ≤ s.scheduled

theorem nodup_partition_extend {L : List Nat} {a lo : Nat} (hnd : L.Nodup)
    (hpart : ∀ x, x ∈ L ↔ (lo ≤ x ∧ x < a)) (hlo : lo ≤ a) :
    (L ++ [a]).Nodup ∧ (∀ x, x ∈ L ++ [a] ↔ (lo ≤ x ∧ x < a + 1)) := by
  have hna : a ∉ L := fun hx => by have := (hpart a).mp hx; omega
  constructor
  · rw [(List.perm_append_singleton a L).nodup_iff]
    exact List.nodup_cons.mpr ⟨hna, hnd⟩
  · intro x
    rw [List.mem_append, List.mem_singleton]
    constructor
    · rintro (hx | rfl)
      · have := (hpart x).mp hx
        omega
      · omega
    · intro hx
      by_cases hxa : x = a
      · exact Or.inr hxa
      · exact Or.inl ((hpart x).mpr ⟨hx.1, by omega⟩)

theorem PInv_completeStep (provider : Nat → Option StreamerMessage)
    (first e : Nat) {s : PState} {h : Nat}
    (hinv : PInv provider first e s) (hm : h ∈ s.inFlight) :
    PInv provider first e (completeStep provider e s h) := by
  have hclosed : s.closed = false := by
    cases hsc : s.closed with
    | false => rfl
    | true =>
      rcases hinv.closed_spec hsc with ⟨hif, _⟩
      rw [hif] at hm
      simp at hm
  have hkeynotmem : h ∉ mkeys s.results := by
    intro hk
    exact (List.nodup_append.mp hinv.nodup).2.2 hk hm
  have hres1 : mset s.results h (provider h) =
      s.results ++ [(h, provider h)] := mset_of_not_mem _ hkeynotmem
  have hkeysapp : mkeys (s.results ++ [(h, provider h)]) =
      mkeys s.results ++ [h] := by simp [mkeys]
  have hperm : List.Perm
      (mkeys (s.results ++ [(h, provider h)]) ++ s.inFlight.erase h)
      (mkeys s.results ++ s.inFlight) := by
    rw [hkeysapp, List.append_assoc, List.singleton_append]
    exact List.Perm.append_left _ ((List.perm_cons_erase hm).symm)
  have hv1 : ∀ kv ∈ s.results ++ [(h, provider h)], kv.2 = provider kv.1 := by
    intro kv hkv
    rcases List.mem_append.mp hkv with hkv | hkv
    · exact hinv.values_eq kv hkv
    · rw [List.mem_singleton.mp hkv]
  have hnd1 : (mkeys (s.results ++ [(h, provider h)]) ++
      s.inFlight.erase h).Nodup := hperm.nodup_iff.mpr hinv.nodup
  have hpart1 : ∀ x, (x ∈ mkeys (s.results ++ [(h, provider h)]) ++
      s.inFlight.erase h) ↔ (s.nextToEmit ≤ x ∧ x < s.scheduled) := by
    intro x
    rw [hperm.mem_iff]
    exact hinv.partition x
  rcases drainLoop_spec provider (s.inFlight.erase h) s.scheduled
    ((s.results ++ [(h, provider h)]).length + 1) s.nextToEmit
    (s.results ++ [(h, provider h)]) s.emitted (Nat.lt_succ_self _)
    hv1 hnd1 hpart1 hinv.next_le_sched with ⟨d1, d2, d3, d4, d5, d6⟩
  have hem : (drainLoop ((s.results ++ [(h, provider h)]).length + 1)
      s.nextToEmit (s.results ++ [(h, provider h)]) s.emitted).2.2 =
      (List.range' first
        ((drainLoop ((s.results ++ [(h, provider h)]).length + 1)
          s.nextToEmit (s.results ++ [(h, provider h)]) s.emitted).1 -
            first)).filterMap provider := by
    have hf := hinv.first_le
    generalize hX : (drainLoop ((s.results ++ [(h, provider h)]).length + 1)
      s.nextToEmit (s.results ++ [(h, provider h)]) s.emitted).1 = n2
      at d4 d5 ⊢
    rw [d4, hinv.emitted_eq, ← List.filterMap_append]
    congr 1
    have key := List.range'_append_1 first (s.nextToEmit - first)
      (n2 - s.nextToEmit)
    rw [show first + (s.nextToEmit - first) = s.nextToEmit by omega] at key
    rw [key]
    congr 1
    omega
  unfold completeStep
  rw [hres1]
  by_cases hse : s.scheduled < e
  · rw [if_pos hse]
    rcases nodup_partition_extend d2 d3 d6 with ⟨hnd2, hpart2⟩
    refine ⟨hem, le_trans hinv.first_le d5, le_trans d6 (Nat.le_succ _),
      Nat.succ_le_of_lt (lt_of_lt_of_le hse (le_max_right first e)),
      d1, ?_, ?_, ?_⟩
    · rw [List.append_assoc] at hnd2
      exact hnd2
    · intro x
      have hp := hpart2 x
      rw [List.append_assoc] at hp
      exact hp
    · intro hcc
      have h2 : s.closed = true := hcc
      rw [hclosed] at h2
      cases h2
  · rw [if_neg hse]
    by_cases hfin : (s.inFlight.erase h).length = 0 ∧
        (drainLoop ((s.results ++ [(h, provider h)]).length + 1)
          s.nextToEmit (s.results ++ [(h, provider h)]) s.emitted).2.1.length
          = 0
    · rw [if_pos hfin]
      have hif : s.inFlight.erase h = [] := List.length_eq_zero.mp hfin.1
      have hrs : (drainLoop ((s.results ++ [(h, provider h)]).length + 1)
          s.nextToEmit (s.results ++ [(h, provider h)]) s.emitted).2.1 = [] :=
        List.length_eq_zero.mp hfin.2
      have hdone : (drainLoop ((s.results ++ [(h, provider h)]).length + 1)
          s.nextToEmit (s.results ++ [(h, provider h)]) s.emitted).1 =
          s.scheduled := by
        by_contra hne
        have hlt : (drainLoop ((s.results ++ [(h, provider h)]).length + 1)
            s.nextToEmit (s.results ++ [(h, provider h)]) s.emitted).1 <
            s.scheduled := by omega
        have := (d3 ((drainLoop ((s.results ++ [(h, provider h)]).length + 1)
            s.nextToEmit (s.results ++ [(h, provider h)]) s.emitted).1)).mpr
          ⟨Nat.le_refl _, hlt⟩
        rw [hrs, hif] at this
        simp [mkeys] at this
      refine ⟨hem, le_trans hinv.first_le d5, d6, hinv.sched_le, d1,
        ?_, ?_, ?_⟩
      · show (mkeys (drainLoop ((s.results ++ [(h, provider h)]).length + 1)
          s.nextToEmit (s.results ++ [(h, provider h)]) s.emitted).2.1 ++
          s.inFlight.erase h).Nodup
        rw [hrs, hif]
        simp [mkeys]
      · intro x
        show x ∈ mkeys (drainLoop
            ((s.results ++ [(h, provider h)]).length + 1) s.nextToEmit
            (s.results ++ [(h, provider h)]) s.emitted).2.1 ++
            s.inFlight.erase h ↔ _
        exact d3 x
      · intro _
        exact ⟨hif, hrs, hdone, Nat.le_of_not_lt hse⟩
    · rw [if_neg hfin]
      refine ⟨hem, le_trans hinv.first_le d5, d6, hinv.sched_le, d1, d2, d3,
        ?_⟩
      intro hcc
      have h2 : s.closed = true := hcc
      rw [hclosed] at h2
      cases h2

theorem PInv_prime (provider : Nat → Option StreamerMessage) (first e : Nat) :
    ∀ (w : Nat) (s : PState), PInv provider first e s → s.closed = false →
      PInv provider first e (prime e w s) ∧ (prime e w s).closed = false := by
  intro w
  induction w with
  | zero => intro s hinv hcl; exact ⟨hinv, hcl⟩
  | succ w ih =>
    intro s hinv hcl
    rw [prime]
    by_cases hs : s.scheduled < e
    · rw [if_pos hs]
      apply ih
      · rcases nodup_partition_extend hinv.nodup hinv.partition
          hinv.next_le_sched with ⟨hnd2, hpart2⟩
        refine ⟨hinv.emitted_eq, hinv.first_le,
          le_trans hinv.next_le_sched (Nat.le_succ _),
          Nat.succ_le_of_lt (lt_of_lt_of_le hs (le_max_right first e)),
          hinv.values_eq, ?_, ?_, ?_⟩
        · rw [List.append_assoc] at hnd2
          exact hnd2
        · intro x
          have hp := hpart2 x
          rw [List.append_assoc] at hp
          exact hp
        · intro hcc
          have h2 : s.closed = true := hcc
          rw [hcl] at h2
          cases h2
      · exact hcl
    · rw [if_neg hs]
      exact ⟨hinv, hcl⟩

theorem PInv_initPState (provider : Nat → Option StreamerMessage)
    (first e workers : Nat) :
    PInv provider first e (initPState first e workers) ∧
      (initPState first e workers).closed = false := by
  apply PInv_prime
  · refine ⟨by simp, Nat.le_refl first, Nat.le_refl first,
      le_max_left first e, ?_, ?_, ?_, ?_⟩
    · intro kv hkv
      simp at hkv
    · simp [mkeys]
    · intro x
      simp only [mkeys, List.map_nil, List.nil_append, List.not_mem_nil,
        false_iff]
      omega
    · intro hcc
      cases hcc
  · rfl

theorem PReachable_inv {provider : Nat → Option StreamerMessage}
    {first e workers : Nat} {s : PState}
    (hr : PReachable provider first e workers s) :
    PInv provider first e s := by
  induction hr with
  | init => exact (PInv_initPState provider first e workers).1
  | step hs hm ih => exact PInv_completeStep provider first e ih hm

theorem map_height_filterMap (provider : Nat → Option StreamerMessage)
    (hheight : ∀ h m, provider h = some m → m.block_header.height = h) :
    ∀ l : List Nat,
      (l.filterMap provider).map (fun m => m.block_header.height) =
        l.filter (fun h => (provider h).isSome) := by
  intro l
  induction l with
  | nil => rfl
  | cons a l ih =>
    rw [List.filterMap_cons]
    cases hp : provider a with
    | none => simp [List.filter_cons, hp, ih]
    | some m => simp [List.filter_cons, hp, ih, hheight a m hp]

/-- C2: in every reachable state of the parallel fetch pipeline — whatever
order the per-height fetches complete in — the messages delivered to the
consumer are exactly the provider's non-absent results on
`[first, nextToEmit)` in height order; in particular the delivered height
sequence is strictly increasing, no height is delivered twice, and no
height is delivered before every lower non-absent height in the window. -/
theorem c2_delivered_strictly_increasing
    (provider : Nat → Option StreamerMessage) (first e workers : Nat)
    (s : PState)
    (hheight : ∀ h m, provider h = some m → m.block_header.height = h)
    (hr : PReachable provider first e workers s) :
    s.emitted =
      (List.range' first (s.nextToEmit - first)).filterMap provider ∧
    List.Sorted (· < ·)
      (s.emitted.map (fun m => m.block_header.height)) := by
  have hinv := PReachable_inv hr
  refine ⟨hinv.emitted_eq, ?_⟩
  rw [hinv.emitted_eq, map_height_filterMap provider hheight]
  exact List.Pairwise.sublist (List.filter_sublist _)
    (List.pairwise_lt_range' first _)

/-- C7: in every reachable state, every delivered message is a non-absent
provider result for some attempted height (absent heights are silently
suppressed, never delivered); and when the pipeline signals completion the
deliveries are exactly the non-absent results over the whole fetch window
`[first, e)` — every height was attempted, with no error path. -/
theorem c7_absent_heights_suppressed
    (provider : Nat → Option StreamerMessage) (first e workers : Nat)
    (s : PState) (hr : PReachable provider first e workers s) :
    (∀ m ∈ s.emitted, ∃ h, first ≤ h ∧ h < s.nextToEmit ∧
      provider h = some m) ∧
    (s.closed = true →
      s.emitted = (List.range' first (e - first)).filterMap provider) := by
  have hinv := PReachable_inv hr
  constructor
  · intro m hm
    rw [hinv.emitted_eq] at hm
    rcases List.mem_filterMap.mp hm with ⟨a, ha, hpa⟩
    rcases List.mem_range'_1.mp ha with ⟨h1, h2⟩
    exact ⟨a, h1, by omega, hpa⟩
  · intro hc
    rcases hinv.closed_spec hc with ⟨_, _, hns, hes⟩
    rw [hinv.emitted_eq]
    have hsl := hinv.sched_le
    have hnl := hinv.next_le_sched
    have hfl := hinv.first_le
    have hdisj : s.scheduled ≤ first ∨ s.scheduled ≤ e := by
      rcases Nat.le_total first e with hfe | hef
      · right
        rwa [Nat.max_eq_right hfe] at hsl
      · left
        rwa [Nat.max_eq_left hef] at hsl
    have hcount : s.nextToEmit - first = e - first := by
      rcases hdisj with hd | hd <;> omega
    rw [hcount]

/-- Witness for C2: two workers over `[0, 3)` with height 1 absent; the
fetches for heights 1 and 0 complete out of order, yet the delivered
sequence is in increasing height order. -/
theorem c2_delivered_strictly_increasing_witness :
    (completeStep (fun h => if h = 1 then none else some ⟨⟨h, ""⟩, []⟩) 3
      (completeStep (fun h => if h = 1 then none else some ⟨⟨h, ""⟩, []⟩) 3
        (initPState 0 3 2) 1) 0).emitted =
      (List.range' 0
        ((completeStep (fun h => if h = 1 then none else some ⟨⟨h, ""⟩, []⟩) 3
          (completeStep (fun h => if h = 1 then none else some ⟨⟨h, ""⟩, []⟩)
            3 (initPState 0 3 2) 1) 0).nextToEmit - 0)).filterMap
        (fun h => if h = 1 then none else some ⟨⟨h, ""⟩, []⟩) ∧
    List.Sorted (· < ·)
      ((completeStep (fun h => if h = 1 then none else some ⟨⟨h, ""⟩, []⟩) 3
        (completeStep (fun h => if h = 1 then none else some ⟨⟨h, ""⟩, []⟩) 3
          (initPState 0 3 2) 1) 0).emitted.map
        (fun m => m.block_header.height)) :=
  c2_delivered_strictly_increasing
    (fun h => if h = 1 then none else some ⟨⟨h, ""⟩, []⟩) 0 3 2
    (completeStep (fun h => if h = 1 then none else some ⟨⟨h, ""⟩, []⟩) 3
      (completeStep (fun h => if h = 1 then none else some ⟨⟨h, ""⟩, []⟩) 3
        (initPState 0 3 2) 1) 0)
    (by
      intro h m hm
      dsimp only at hm
      by_cases h1 : h = 1
      · rw [if_pos h1] at hm
        cases hm
      · rw [if_neg h1] at hm
        injection hm with hm
        rw [← hm])
    (PReachable.step (PReachable.step PReachable.init (by decide))
      (by decide))

/-- Witness for C7: two workers over `[0, 2)` with height 1 absent; after
both fetches complete the pipeline closes having delivered only the
message at height 0. -/
theorem c7_absent_heights_suppressed_witness :
    (∀ m ∈ (completeStep
        (fun h => if h = 1 then none else some ⟨⟨h, ""⟩, []⟩) 2
        (completeStep (fun h => if h = 1 then none else some ⟨⟨h, ""⟩, []⟩) 2
          (initPState 0 2 2) 0) 1).emitted,
      ∃ h, 0 ≤ h ∧ h < (completeStep
        (fun h => if h = 1 then none else some ⟨⟨h, ""⟩, []⟩) 2
        (completeStep (fun h => if h = 1 then none else some ⟨⟨h, ""⟩, []⟩) 2
          (initPState 0 2 2) 0) 1).nextToEmit ∧
        (fun h => if h = 1 then none else
          some (⟨⟨h, ""⟩, []⟩ : StreamerMessage)) h = some m) ∧
    ((completeStep (fun h => if h = 1 then none else some ⟨⟨h, ""⟩, []⟩) 2
      (completeStep (fun h => if h = 1 then none else some ⟨⟨h, ""⟩, []⟩) 2
        (initPState 0 2 2) 0) 1).closed = true →
      (completeStep (fun h => if h = 1 then none else some ⟨⟨h, ""⟩, []⟩) 2
        (completeStep (fun h => if h = 1 then none else some ⟨⟨h, ""⟩, []⟩) 2
          (initPState 0 2 2) 0) 1).emitted =
        (List.range' 0 (2 - 0)).filterMap
          (fun h => if h = 1 then none else some ⟨⟨h, ""⟩, []⟩)) :=
  c7_absent_heights_suppressed
    (fun h => if h = 1 then none else some ⟨⟨h, ""⟩, []⟩) 0 2 2
    (completeStep (fun h => if h = 1 then none else some ⟨⟨h, ""⟩, []⟩) 2
      (completeStep (fun h => if h = 1 then none else some ⟨⟨h, ""⟩, []⟩) 2
        (initPState 0 2 2) 0) 1)
    (PReachable.step (PReachable.step PReachable.init (by decide))
      (by decide))

/-! ## Claim C1: a transaction resolving across N consecutive blocks

The scenario family: a transaction `T` with `N ≥ 1` initial receipt ids
(`T.outcome_receipt_ids`, pairwise distinct) appears in the first of `N`
consecutive in-range blocks at heights `H, H+1, …, H+N-1`; the `i`-th
receipt resolves in block `i` (an arbitrary receipt record `rec i` carrying
that receipt id and no follow-on receipts).  All blocks are processed with
preprocessing on and every visibility flag set (the in-range flags). -/

/-- Block `i` of the scenario: the transaction rides in block 0's chunk;
block `i` resolves receipt `i`. -/
def c1Msg (H : Nat) (T : IndexerTransactionWithOutcome)
    (rec : Nat → IndexerExecutionOutcomeWithReceipt) (tsf : Nat → String)
    (i : Nat) : StreamerMessage :=
  ⟨⟨H + i, tsf i⟩, [⟨0, if i = 0 then some ⟨[T]⟩ else none, [rec i]⟩]⟩

/-- In-range processing options for block `i`. -/
def c1Opts (H i : Nat) : BlockProcessingOptions :=
  ⟨H + i, true, true, true, true⟩

/-- The whole processed input sequence of the scenario. -/
def c1Inputs (H : Nat) (T : IndexerTransactionWithOutcome)
    (rec : Nat → IndexerExecutionOutcomeWithReceipt) (tsf : Nat → String) :
    List (StreamerMessage × BlockProcessingOptions) :=
  (List.range T.outcome_receipt_ids.length).map
    (fun i => (c1Msg H T rec tsf i, c1Opts H i))

/-- The resolved receipt record built when receipt `i` resolves. -/
def c1Proc (H : Nat) (rec : Nat → IndexerExecutionOutcomeWithReceipt)
    (tsf : Nat → String) (i : Nat) : TransactionReceipt :=
  ⟨rec i, H + i, tsf i⟩

/-- The receipt-mapping contents after the first `k` receipts resolved. -/
def c1G (H : Nat) (T : IndexerTransactionWithOutcome)
    (rec : Nat → IndexerExecutionOutcomeWithReceipt) (tsf : Nat → String)
    (k : Nat) (r : String) : Option TransactionReceipt :=
  if T.outcome_receipt_ids.indexOf r < k then
    some (c1Proc H rec tsf (T.outcome_receipt_ids.indexOf r))
  else none

/-- The open-transaction record after the first `k` receipts resolved. -/
def c1Itx (H : Nat) (T : IndexerTransactionWithOutcome)
    (rec : Nat → IndexerExecutionOutcomeWithReceipt) (tsf : Nat → String)
    (k : Nat) : IncompleteTransaction :=
  ⟨T, T.outcome_receipt_ids.map (fun r => (r, c1G H T rec tsf k r))⟩

/-- The machine state after processing the first `k` blocks. -/
def c1State (H : Nat) (T : IndexerTransactionWithOutcome)
    (rec : Nat → IndexerExecutionOutcomeWithReceipt) (tsf : Nat → String)
    (k : Nat) : IndexerStateM :=
  if k = 0 then IndexerStateM.empty
  else
    ⟨if k < T.outcome_receipt_ids.length then
        [(T.transaction.hash, c1Itx H T rec tsf k)]
      else [],
     T.outcome_receipt_ids.map (fun r => (r, T.transaction.hash))⟩

/-- The events emitted while processing block `k` of the scenario. -/
def c1Events (H : Nat) (T : IndexerTransactionWithOutcome)
    (rec : Nat → IndexerExecutionOutcomeWithReceipt) (tsf : Nat → String)
    (k : Nat) : List Event :=
  [Event.processBlockE (c1Msg H T rec tsf k)] ++
  (if k = 0 then [Event.processTransactionE T (c1Msg H T rec tsf 0)]
    else []) ++
  [Event.onReceiptE (c1Proc H rec tsf k) (c1Itx H T rec tsf k)
    (c1Msg H T rec tsf k)] ++
  (if k + 1 = T.outcome_receipt_ids.length then
    [Event.onTransactionE
      ⟨T, (List.range T.outcome_receipt_ids.length).map (c1Proc H rec tsf)⟩
      (c1Msg H T rec tsf k)]
   else []) ++
  [Event.processReceiptE (rec k) (c1Msg H T rec tsf k),
   Event.processBlockEndE (c1Msg H T rec tsf k)]

theorem reduceOption_map_some {α β : Type} (l : List α) (f : α → β) :
    (l.map (fun a => some (f a))).reduceOption = l.map f := by
  induction l with
  | nil => rfl
  | cons a l ih => simp [ih]

theorem indexOf_getD {l : List String} (hnd : l.Nodup) {k : Nat}
    (hk : k < l.length) : l.indexOf (l.getD k "") = k := by
  rw [List.getD_eq_getElem l "" hk]
  exact List.indexOf_getElem hnd k hk

theorem getD_mem {l : List String} {k : Nat} (hk : k < l.length) :
    l.getD k "" ∈ l := by
  rw [List.getD_eq_getElem l "" hk]
  exact List.getElem_mem hk

theorem map_indexOf_range {l : List String} (hnd : l.Nodup) :
    l.map (fun r => l.indexOf r) = List.range l.length := by
  apply List.ext_getElem
  · simp
  · intro i h1 h2
    simp only [List.getElem_map, List.getElem_range]
    exact List.indexOf_getElem hnd i (by simpa using h1)

theorem mvalues_map_self {g : String → Option TransactionReceipt}
    (l : List String) :
    mvalues (l.map fun r => (r, g r)) = l.map g := by
  simp [mvalues, List.map_map]

theorem indexOf_eq_iff_getD {l : List String} (hnd : l.Nodup) {k : Nat}
    (hk : k < l.length) {r : String} (hr : r ∈ l) :
    r = l.getD k "" ↔ l.indexOf r = k := by
  constructor
  · intro h
    rw [h]
    exact indexOf_getD hnd hk
  · intro h
    subst h
    rw [List.getD_eq_getElem l "" hk]
    have hg := List.indexOf_get (List.indexOf_lt_length.mpr hr)
    rw [List.get_eq_getElem] at hg
    exact hg.symm

theorem c1_mset_update (H : Nat) (T : IndexerTransactionWithOutcome)
    (rec : Nat → IndexerExecutionOutcomeWithReceipt) (tsf : Nat → String)
    (k : Nat) (hnd : T.outcome_receipt_ids.Nodup)
    (hk : k < T.outcome_receipt_ids.length) :
    mset (T.outcome_receipt_ids.map (fun r => (r, c1G H T rec tsf k r)))
      (T.outcome_receipt_ids.getD k "") (some (c1Proc H rec tsf k)) =
    T.outcome_receipt_ids.map (fun r => (r, c1G H T rec tsf (k + 1) r)) := by
  rw [mset_map_self hnd (getD_mem hk)]
  apply List.map_congr_left
  intro r hr
  have hjlt := List.indexOf_lt_length.mpr hr
  by_cases hrk : r = T.outcome_receipt_ids.getD k ""
  · rw [if_pos hrk]
    have hik : T.outcome_receipt_ids.indexOf r = k :=
      (indexOf_eq_iff_getD hnd hk hr).mp hrk
    simp only [c1G, hik, if_pos (Nat.lt_succ_self k)]
  · rw [if_neg hrk]
    have hik : T.outcome_receipt_ids.indexOf r ≠ k :=
      fun he => hrk ((indexOf_eq_iff_getD hnd hk hr).mpr he)
    simp only [c1G]
    by_cases hlt : T.outcome_receipt_ids.indexOf r < k
    · rw [if_pos hlt, if_pos (by omega)]
    · rw [if_neg hlt, if_neg (by omega)]

theorem c1_all_resolved (H : Nat) (T : IndexerTransactionWithOutcome)
    (rec : Nat → IndexerExecutionOutcomeWithReceipt) (tsf : Nat → String)
    (k : Nat) (hge : T.outcome_receipt_ids.length ≤ k) :
    (T.outcome_receipt_ids.map (c1G H T rec tsf k)).all
      (fun r => r.isSome) = true := by
  rw [List.all_eq_true]
  intro x hx
  rcases List.mem_map.mp hx with ⟨r, hr, hrx⟩
  have hjlt := List.indexOf_lt_length.mpr hr
  rw [← hrx]
  simp only [c1G, if_pos (by omega : T.outcome_receipt_ids.indexOf r < k)]
  rfl

theorem c1_not_all_resolved (H : Nat) (T : IndexerTransactionWithOutcome)
    (rec : Nat → IndexerExecutionOutcomeWithReceipt) (tsf : Nat → String)
    (k : Nat) (hnd : T.outcome_receipt_ids.Nodup)
    (hk : k < T.outcome_receipt_ids.length) :
    (T.outcome_receipt_ids.map (c1G H T rec tsf k)).all
      (fun r => r.isSome) = false := by
  rw [Bool.eq_false_iff]
  intro hall
  rw [List.all_eq_true] at hall
  have hx := hall (c1G H T rec tsf k (T.outcome_receipt_ids.getD k ""))
    (List.mem_map.mpr ⟨T.outcome_receipt_ids.getD k "", getD_mem hk, rfl⟩)
  simp only [c1G, indexOf_getD hnd hk, Nat.lt_irrefl, if_neg] at hx
  cases hx

theorem c1_complete_receipts (H : Nat) (T : IndexerTransactionWithOutcome)
    (rec : Nat → IndexerExecutionOutcomeWithReceipt) (tsf : Nat → String)
    (hnd : T.outcome_receipt_ids.Nodup) :
    (T.outcome_receipt_ids.map
      (c1G H T rec tsf T.outcome_receipt_ids.length)).reduceOption =
    (List.range T.outcome_receipt_ids.length).map (c1Proc H rec tsf) := by
  have h1 : T.outcome_receipt_ids.map
      (c1G H T rec tsf T.outcome_receipt_ids.length) =
      T.outcome_receipt_ids.map (fun r =>
        some (c1Proc H rec tsf (T.outcome_receipt_ids.indexOf r))) := by
    apply List.map_congr_left
    intro r hr
    have hjlt := List.indexOf_lt_length.mpr hr
    simp only [c1G, if_pos hjlt]
  rw [h1, reduceOption_map_some, ← map_indexOf_range hnd, List.map_map]
  rfl

theorem c1_receipt_step (H : Nat) (T : IndexerTransactionWithOutcome)
    (rec : Nat → IndexerExecutionOutcomeWithReceipt) (tsf : Nat → String)
    (k : Nat) (hnd : T.outcome_receipt_ids.Nodup)
    (hh : T.transaction.hash ≠ "")
    (hrid : ∀ i < T.outcome_receipt_ids.length,
      (rec i).receipt.receipt_id = T.outcome_receipt_ids.getD i "")
    (hfol : ∀ i < T.outcome_receipt_ids.length,
      (rec i).execution_outcome.receipt_ids = [])
    (hk : k < T.outcome_receipt_ids.length) (tr0 : List Event) :
    processOneReceipt hooksAll (c1Opts H k) (c1Msg H T rec tsf k)
      (⟨[(T.transaction.hash, c1Itx H T rec tsf k)],
        T.outcome_receipt_ids.map (fun r => (r, T.transaction.hash))⟩, tr0)
      (rec k) =
    (c1State H T rec tsf (k + 1),
     tr0 ++ [Event.onReceiptE (c1Proc H rec tsf k) (c1Itx H T rec tsf k)
       (c1Msg H T rec tsf k)] ++
     (if k + 1 = T.outcome_receipt_ids.length then
       [Event.onTransactionE
         ⟨T, (List.range T.outcome_receipt_ids.length).map (c1Proc H rec tsf)⟩
         (c1Msg H T rec tsf k)]
      else []) ++
     [Event.processReceiptE (rec k) (c1Msg H T rec tsf k)]) := by
  have hmem := getD_mem hk
  have hE : mget (T.outcome_receipt_ids.map
      (fun r => (r, T.transaction.hash))) (rec k).receipt.receipt_id =
      some T.transaction.hash := by
    rw [hrid k hk]
    exact mget_map_self hmem
  have hP : mget [(T.transaction.hash, c1Itx H T rec tsf k)]
      T.transaction.hash = some (c1Itx H T rec tsf k) := by
    simp [mget]
  simp only [processOneReceipt, hE, hP, hfol k hk, hooksAll, c1Opts]
  rw [if_pos (show T.transaction.hash ≠ "" ∧ True from ⟨hh, trivial⟩)]
  simp only [List.foldl_nil]
  have hRU : mset (c1Itx H T rec tsf k).receipts (rec k).receipt.receipt_id
      (some { receipt := rec k,
              block_height := (c1Msg H T rec tsf k).block_header.height,
              block_timestamp_nanosec :=
                (c1Msg H T rec tsf k).block_header.timestamp_nanosec }) =
      T.outcome_receipt_ids.map (fun r => (r, c1G H T rec tsf (k + 1) r)) := by
    show mset (c1Itx H T rec tsf k).receipts (rec k).receipt.receipt_id
      (some (c1Proc H rec tsf k)) = _
    simp only [c1Itx]
    rw [hrid k hk]
    exact c1_mset_update H T rec tsf k hnd hk
  simp only [hRU, mvalues_map_self]
  have hincomplete1 : (⟨(c1Itx H T rec tsf k).transaction,
      T.outcome_receipt_ids.map
        (fun r => (r, c1G H T rec tsf (k + 1) r))⟩ : IncompleteTransaction)
      = c1Itx H T rec tsf (k + 1) := rfl
  simp only [hincomplete1]
  have hms : mset [(T.transaction.hash, c1Itx H T rec tsf k)]
      T.transaction.hash (c1Itx H T rec tsf (k + 1)) =
      [(T.transaction.hash, c1Itx H T rec tsf (k + 1))] := by
    simp [mset]
  simp only [hms]
  by_cases hN : k + 1 = T.outcome_receipt_ids.length
  · rw [if_pos (c1_all_resolved H T rec tsf (k + 1) (by omega))]
    have hmd : mdel [(T.transaction.hash, c1Itx H T rec tsf (k + 1))]
        T.transaction.hash = [] := by
      simp [mdel]
    have hN0 : T.outcome_receipt_ids.length ≠ 0 := by omega
    have htrans : (c1Itx H T rec tsf k).transaction = T := rfl
    rw [hmd, hN, htrans, c1_complete_receipts H T rec tsf hnd]
    simp only [c1State, if_pos rfl, if_neg hN0, Nat.lt_irrefl, if_neg,
      if_pos hN]
    simp [c1Msg, c1Proc, List.append_assoc]
  · have hAR := c1_not_all_resolved H T rec tsf (k + 1) hnd (by omega)
    rw [if_neg (by rw [hAR]; simp)]
    have hlt : k + 1 < T.outcome_receipt_ids.length := by omega
    simp only [c1State, if_neg hN]
    simp [c1Msg, c1Proc, List.append_assoc, hlt]

theorem c1_block_step (H : Nat) (T : IndexerTransactionWithOutcome)
    (rec : Nat → IndexerExecutionOutcomeWithReceipt) (tsf : Nat → String)
    (k : Nat) (hnd : T.outcome_receipt_ids.Nodup)
    (hh : T.transaction.hash ≠ "")
    (hrid : ∀ i < T.outcome_receipt_ids.length,
      (rec i).receipt.receipt_id = T.outcome_receipt_ids.getD i "")
    (hfol : ∀ i < T.outcome_receipt_ids.length,
      (rec i).execution_outcome.receipt_ids = [])
    (hk : k < T.outcome_receipt_ids.length) :
    processBlock hooksAll (c1Opts H k) (c1State H T rec tsf k)
      (c1Msg H T rec tsf k) =
    (c1State H T rec tsf (k + 1), c1Events H T rec tsf k) := by
  have hop1 : (c1Opts H k).preprocess = true := rfl
  have hop2 : (c1Opts H k).preprocess_new_transactions = true := rfl
  have hop3 : (c1Opts H k).handle_raw_events = true := rfl
  have hop4 : (c1Opts H k).handle_preprocessed_transactions_by_indexer
      = true := rfl
  have hb1 : hooksAll.processBlock = true := rfl
  have hb2 : hooksAll.processTransaction = true := rfl
  have hb3 : hooksAll.processReceipt = true := rfl
  have hb4 : hooksAll.onTransaction = true := rfl
  have hb5 : hooksAll.onReceipt = true := rfl
  have hb6 : hooksAll.processBlockEnd = true := rfl
  by_cases hk0 : k = 0
  · subst hk0
    have hsh : (c1Msg H T rec tsf 0).shards = [⟨0, some ⟨[T]⟩, [rec 0]⟩] := by
      simp [c1Msg]
    have hrtx := foldl_mset_const_fresh T.transaction.hash
      ([] : List (String × String)) (by simp [mkeys]) hnd
    have hrcpts := foldl_mset_const_fresh
      (none : Option TransactionReceipt)
      ([] : List (String × Option TransactionReceipt)) (by simp [mkeys]) hnd
    have hmap0 : T.outcome_receipt_ids.map
        (fun r => (r, (none : Option TransactionReceipt))) =
        T.outcome_receipt_ids.map (fun r => (r, c1G H T rec tsf 0 r)) :=
      List.map_congr_left (fun r _ => by simp [c1G])
    have hitx0 : (⟨T, T.outcome_receipt_ids.map
        (fun r => (r, (none : Option TransactionReceipt)))⟩ :
        IncompleteTransaction) = c1Itx H T rec tsf 0 := by
      unfold c1Itx
      rw [hmap0]
    simp only [processBlock, hsh, List.foldl_cons, List.foldl_nil,
      processShardTxs, processTxInner, processShardReceipts,
      hop1, hop2, hop3, hop4, hb1, hb2, hb3, hb4, hb5, hb6, c1State,
      IndexerStateM.empty, eq_self_iff_true, ite_true, Bool.and_self,
      List.nil_append]
    simp only [hrtx, hrcpts, List.nil_append, mset, hitx0]
    rw [c1_receipt_step H T rec tsf 0 hnd hh hrid hfol hk]
    simp [c1Events, c1State, List.append_assoc]
  · have hsh : (c1Msg H T rec tsf k).shards = [⟨0, none, [rec k]⟩] := by
      simp [c1Msg, hk0]
    have hst : c1State H T rec tsf k =
        ⟨[(T.transaction.hash, c1Itx H T rec tsf k)],
         T.outcome_receipt_ids.map (fun r => (r, T.transaction.hash))⟩ := by
      simp [c1State, hk0, hk]
    simp only [processBlock, hsh, hst, List.foldl_cons, List.foldl_nil,
      processShardTxs, processShardReceipts, hop3, hb1, hb2, hb3, hb4, hb5,
      hb6, Bool.and_self, ite_true]
    rw [c1_receipt_step H T rec tsf k hnd hh hrid hfol hk]
    simp [c1Events, hk0, List.append_assoc]

theorem c1_run (H : Nat) (T : IndexerTransactionWithOutcome)
    (rec : Nat → IndexerExecutionOutcomeWithReceipt) (tsf : Nat → String)
    (hnd : T.outcome_receipt_ids.Nodup)
    (hh : T.transaction.hash ≠ "")
    (hrid : ∀ i < T.outcome_receipt_ids.length,
      (rec i).receipt.receipt_id = T.outcome_receipt_ids.getD i "")
    (hfol : ∀ i < T.outcome_receipt_ids.length,
      (rec i).execution_outcome.receipt_ids = []) :
    ∀ k, k ≤ T.outcome_receipt_ids.length →
      runBlocks hooksAll IndexerStateM.empty
        ((List.range k).map (fun i => (c1Msg H T rec tsf i, c1Opts H i))) =
      (c1State H T rec tsf k,
       ((List.range k).map (fun i => c1Events H T rec tsf i)).flatten) := by
  intro k
  induction k with
  | zero =>
    intro _
    simp [runBlocks, c1State]
  | succ k ih =>
    intro hk1
    rw [List.range_succ, List.map_append, List.map_append]
    unfold runBlocks
    rw [List.foldl_append]
    have ihh := ih (by omega)
    unfold runBlocks at ihh
    rw [ihh]
    simp only [List.map_cons, List.map_nil, List.foldl_cons, List.foldl_nil]
    rw [c1_block_step H T rec tsf k hnd hh hrid hfol (by omega)]
    simp [List.flatten_append]

theorem c1_events_filter (H : Nat) (T : IndexerTransactionWithOutcome)
    (rec : Nat → IndexerExecutionOutcomeWithReceipt) (tsf : Nat → String)
    (k : Nat) :
    (c1Events H T rec tsf k).filter isOnTx =
      if k + 1 = T.outcome_receipt_ids.length then
        [Event.onTransactionE
          ⟨T, (List.range T.outcome_receipt_ids.length).map (c1Proc H rec tsf)⟩
          (c1Msg H T rec tsf k)]
      else [] := by
  by_cases h : k + 1 = T.outcome_receipt_ids.length
  · simp [c1Events, isOnTx, h, List.filter_append,
      apply_ite (List.filter isOnTx)]
  · simp [c1Events, isOnTx, h, List.filter_append,
      apply_ite (List.filter isOnTx)]

/-- C1: with preprocessing enabled, a transaction registered in-range whose
`N ≥ 1` receipts resolve across the `N` consecutive in-range blocks
`H, …, H + N - 1` triggers the completed-transaction callback exactly once
in the whole run — during the processing of the block in which its last
owed receipt resolves — and the passed receipt list contains all `N`
resolved receipts. -/
theorem c1_transaction_completed_exactly_once (H : Nat)
    (T : IndexerTransactionWithOutcome)
    (rec : Nat → IndexerExecutionOutcomeWithReceipt) (tsf : Nat → String)
    (hnd : T.outcome_receipt_ids.Nodup)
    (hne : T.outcome_receipt_ids ≠ [])
    (hh : T.transaction.hash ≠ "")
    (hrid : ∀ i < T.outcome_receipt_ids.length,
      (rec i).receipt.receipt_id = T.outcome_receipt_ids.getD i "")
    (hfol : ∀ i < T.outcome_receipt_ids.length,
      (rec i).execution_outcome.receipt_ids = []) :
    (runBlocks hooksAll IndexerStateM.empty
      (c1Inputs H T rec tsf)).2.filter isOnTx =
    [Event.onTransactionE
      ⟨T, (List.range T.outcome_receipt_ids.length).map (c1Proc H rec tsf)⟩
      (c1Msg H T rec tsf (T.outcome_receipt_ids.length - 1))] := by
  have hN : 0 < T.outcome_receipt_ids.length := List.length_pos.mpr hne
  unfold c1Inputs
  rw [c1_run H T rec tsf hnd hh hrid hfol _ (Nat.le_refl _)]
  rw [List.filter_flatten]
  have hper : (List.range T.outcome_receipt_ids.length).map
      (fun i => (c1Events H T rec tsf i).filter isOnTx) =
      (List.range T.outcome_receipt_ids.length).map
      (fun i => if i + 1 = T.outcome_receipt_ids.length then
        [Event.onTransactionE
          ⟨T, (List.range T.outcome_receipt_ids.length).map (c1Proc H rec tsf)⟩
          (c1Msg H T rec tsf i)]
       else []) :=
    List.map_congr_left (fun i _ => c1_events_filter H T rec tsf i)
  rw [List.map_map]
  rw [show ((List.filter isOnTx) ∘ fun i => c1Events H T rec tsf i) =
    (fun i => (c1Events H T rec tsf i).filter isOnTx) from rfl]
  rw [hper]
  generalize (List.range T.outcome_receipt_ids.length).map (c1Proc H rec tsf)
    = recs
  have hsplit : List.range T.outcome_receipt_ids.length =
      List.range (T.outcome_receipt_ids.length - 1) ++
        [T.outcome_receipt_ids.length - 1] := by
    have hlen : T.outcome_receipt_ids.length =
        (T.outcome_receipt_ids.length - 1) + 1 := by omega
    rw [hlen, List.range_succ]
    congr 1
  rw [hsplit, List.map_append, List.flatten_append]
  have hzero : ((List.range (T.outcome_receipt_ids.length - 1)).map
      (fun i => if i + 1 = T.outcome_receipt_ids.length then
        [Event.onTransactionE ⟨T, recs⟩ (c1Msg H T rec tsf i)]
       else [])).flatten = [] := by
    rw [List.flatten_eq_nil_iff]
    intro l hl
    rcases List.mem_map.mp hl with ⟨i, hi, hil⟩
    have hilt : i < T.outcome_receipt_ids.length - 1 := List.mem_range.mp hi
    rw [← hil, if_neg (by omega)]
  rw [hzero]
  simp only [List.map_cons, List.map_nil, List.flatten_cons,
    List.flatten_nil, List.nil_append, List.append_nil]
  rw [if_pos (by omega)]

/-- Witness for C1: a transaction with two receipts resolving across two
consecutive blocks at heights 100 and 101. -/
theorem c1_transaction_completed_exactly_once_witness :
    (runBlocks hooksAll IndexerStateM.empty
      (c1Inputs 100 ⟨⟨"t1", "a", "b"⟩, ["r0", "r1"]⟩
        (fun i => ⟨⟨ExecutionStatusView.SuccessValue none, [], []⟩,
          ⟨["r0", "r1"].getD i "", "b"⟩⟩)
        (fun _ => "ts"))).2.filter isOnTx =
    [Event.onTransactionE
      ⟨⟨⟨"t1", "a", "b"⟩, ["r0", "r1"]⟩,
        (List.range 2).map (c1Proc 100
          (fun i => ⟨⟨ExecutionStatusView.SuccessValue none, [], []⟩,
            ⟨["r0", "r1"].getD i "", "b"⟩⟩)
          (fun _ => "ts"))⟩
      (c1Msg 100 ⟨⟨"t1", "a", "b"⟩, ["r0", "r1"]⟩
        (fun i => ⟨⟨ExecutionStatusView.SuccessValue none, [], []⟩,
          ⟨["r0", "r1"].getD i "", "b"⟩⟩)
        (fun _ => "ts") 1)] :=
  c1_transaction_completed_exactly_once 100 ⟨⟨"t1", "a", "b"⟩, ["r0", "r1"]⟩
    (fun i => ⟨⟨ExecutionStatusView.SuccessValue none, [], []⟩,
      ⟨["r0", "r1"].getD i "", "b"⟩⟩)
    (fun _ => "ts") (by decide) (by decide) (by decide)
    (fun i _ => rfl) (fun i _ => rfl)
